import Mathlib

/-!
# shlog: the write/rotation engine

A shallow embedding of `src/src/shlog/shlog.go`.  The logger state (`LOG`, `Rotation`) is
threaded explicitly together with a small model of the file system (`FS`).  Everything the
program reads from its environment during one `Log` call (the wall clock, the caller
information of `runtime.Caller`, and whether each file-system call fails) is supplied by an
`Env` record, so that `Log` is a total, executable function.

Go strings are byte sequences; they are modelled as `List Char`, one element per byte, so
that `len` is `List.length`.  Go `int`/`int64` values are modelled as `Int`; the only
arithmetic is `currentFileSize + writtenByteNum`, which stays far below `2^63`.
-/

namespace Shlog

/-- A Go string: a sequence of bytes, one `Char` per byte. -/
abbrev Str := List Char

/-! ## Constants (shlog.go, lines 14-36) -/

def defaultBufSize : Nat := 4096 * 2
def defaultRotationSize : Int := 1048576

def Trace : Int := 0
def Info : Int := 1
def Warning : Int := 2
def Error : Int := 3
def Fatal : Int := 4

def SizeBasedRotation : Int := 0
def TimeBasedRotation : Int := 1

def Synchronous : Int := 0
def Asynchronous : Int := 1

/-- The array `severityLevels = [5]string{"trace", "info", "warning", "error", "fatal"}`. -/
def severityLevels : List Str :=
  [['t', 'r', 'a', 'c', 'e'], ['i', 'n', 'f', 'o'], ['w', 'a', 'r', 'n', 'i', 'n', 'g'],
   ['e', 'r', 'r', 'o', 'r'], ['f', 'a', 't', 'a', 'l']]

/-- The indexing expression `severityLevels[level]`: `none` stands for the run-time panic
"index out of range" that Go raises when `level` is not in `0..4`. -/
def severityName (level : Int) : Option Str :=
  if level < 0 then none else severityLevels.get? level.toNat

/-! ## Time and caller formatting (shlog.go, lines 266-294 and 325-336) -/

/-- One reading of the wall clock: the results of `now.Date()` and `now.Clock()`. -/
structure Time where
  year : Int
  month : Nat
  day : Nat
  hour : Nat
  min : Nat
  sec : Nat
deriving DecidableEq

/-- The library function `strconv.Itoa`: decimal rendering, with a leading `-` when negative. -/
def itoa (n : Int) : Str :=
  if n < 0 then '-' :: Nat.toDigits 10 n.natAbs else Nat.toDigits 10 n.toNat

/-- The library method `time.Month.String`: the English name of months 1..12. -/
def monthString (m : Nat) : Str :=
  match m with
  | 1 => "January".toList
  | 2 => "February".toList
  | 3 => "March".toList
  | 4 => "April".toList
  | 5 => "May".toList
  | 6 => "June".toList
  | 7 => "July".toList
  | 8 => "August".toList
  | 9 => "September".toList
  | 10 => "October".toList
  | 11 => "November".toList
  | 12 => "December".toList
  | k => "%!Month(".toList ++ itoa k ++ [')']

/-- The function `getLogTime`: `<year> <month> <day> <hour>:<minute>:<second>`. -/
def getLogTime (now : Time) : Str :=
  itoa now.year ++ [' '] ++ monthString now.month ++ [' '] ++ itoa now.day ++ [' ']
    ++ itoa now.hour ++ [':'] ++ itoa now.min ++ [':'] ++ itoa now.sec

/-- The function `getCurrentDateString`: `<year> <month> <day>`. -/
def getCurrentDateString (now : Time) : Str :=
  itoa now.year ++ [' '] ++ monthString now.month ++ [' '] ++ itoa now.day

/-- The loop `for i := len(file) - 1; i > 0; i-- { if file[i] == '/' { file = file[i+1:]; break } }`
of `getLogFilePlace`, started at index `i`. -/
def lastFileName (file : Str) : Nat → Str
  | 0 => file
  | i + 1 => if file.get? (i + 1) = some '/' then file.drop (i + 2) else lastFileName file i

/-- The function `getLogFilePlace`.  The argument is what `runtime.Caller(2)` reported:
`some (file, line)` when `ok`, `none` otherwise (then `file = "???"` and `line = 0`). -/
def getLogFilePlace (caller : Option (Str × Int)) : Str :=
  let fl : Str × Int :=
    match caller with
    | some fl => fl
    | none => (['?', '?', '?'], 0)
  lastFileName fl.1 (fl.1.length - 1) ++ [':'] ++ itoa fl.2

/-- The expression of lines 203 and 205:
`logSeverityName + "  " + logTimePrefix + " - " + logFilePrefix + ":  " + data + "\n"`. -/
def formatRecord (severity time place data : Str) : Str :=
  severity ++ [' ', ' '] ++ time ++ [' ', '-', ' '] ++ place ++ [':', ' ', ' '] ++ data ++ ['\n']

/-! ## The file system as seen through `os` and `bufio`

Paths name inodes, inodes hold contents, and open descriptors refer to inodes, so a rename
does not disturb a descriptor that is still open.  Every library call the logger makes is
recorded in `calls`, oldest first. -/

/-- A library call made by the logger, with what it was given and what it reported. -/
inductive IOCall
  | osOpenFile (path : Str) (fd : Option Nat)
  | fileWrite (file : Option Nat) (bytes : Str) (n : Nat)
  | writeString (bytes : Str) (n : Nat)
  | fileClose (file : Option Nat)
  | osRename (oldpath newpath : Str) (ok : Bool)
deriving DecidableEq

structure FS where
  /-- The directory: which inode a path names, if any. -/
  dir : Str → Option Nat
  /-- The content of each inode. -/
  data : Nat → Str
  /-- The next unused inode number. -/
  nextIno : Nat
  /-- The inode each descriptor refers to. -/
  fdIno : Nat → Nat
  /-- The descriptors that are open. -/
  openFds : List Nat
  /-- The next unused descriptor number. -/
  nextFd : Nat
  /-- The library calls made so far. -/
  calls : List IOCall

def FS.record (fs : FS) (c : IOCall) : FS :=
  { fs with calls := fs.calls ++ [c] }

/-- The call `os.OpenFile(path, os.O_WRONLY|os.O_CREATE|os.O_APPEND, 0644)`: `none` when the
call fails; otherwise a new descriptor on the file at `path`, created empty if absent. -/
def FS.osOpenFile (fs : FS) (path : Str) (fails : Bool) : Option Nat × FS :=
  if fails then (none, fs.record (.osOpenFile path none))
  else
    match fs.dir path with
    | some ino =>
      (some fs.nextFd,
        { fs with
          fdIno := Function.update fs.fdIno fs.nextFd ino
          openFds := fs.nextFd :: fs.openFds
          nextFd := fs.nextFd + 1
          calls := fs.calls ++ [.osOpenFile path (some fs.nextFd)] })
    | none =>
      (some fs.nextFd,
        { fs with
          dir := Function.update fs.dir path (some fs.nextIno)
          data := Function.update fs.data fs.nextIno []
          nextIno := fs.nextIno + 1
          fdIno := Function.update fs.fdIno fs.nextFd fs.nextIno
          openFds := fs.nextFd :: fs.openFds
          nextFd := fs.nextFd + 1
          calls := fs.calls ++ [.osOpenFile path (some fs.nextFd)] })

/-- The size `file.Stat()` reports for an open descriptor. -/
def FS.statSize (fs : FS) (fd : Nat) : Nat :=
  (fs.data (fs.fdIno fd)).length

/-- The method `(*os.File).Write` on a file opened for appending.  A nil or closed file
writes nothing and reports an error.  `fault = some k` makes the write fail after at most
`k` bytes; `none` lets it succeed.  The result is the byte count and whether an error was
reported. -/
def FS.fileWrite (fs : FS) (file : Option Nat) (b : Str) (fault : Option Nat) :
    Nat × Bool × FS :=
  match file with
  | none => (0, true, fs.record (.fileWrite none b 0))
  | some fd =>
    if fd ∈ fs.openFds then
      let n := match fault with
        | none => b.length
        | some k => min k b.length
      (n, fault.isSome,
        { fs with
          data := Function.update fs.data (fs.fdIno fd) (fs.data (fs.fdIno fd) ++ b.take n)
          calls := fs.calls ++ [.fileWrite file b n] })
    else (0, true, fs.record (.fileWrite file b 0))

/-- The method `(*os.File).Close`: closes an open descriptor; on a nil or already closed
file it only reports an error, which every caller in shlog.go discards. -/
def FS.fileClose (fs : FS) (file : Option Nat) : FS :=
  match file with
  | none => fs.record (.fileClose none)
  | some fd =>
    { fs with
      openFds := fs.openFds.filter (fun x => x ≠ fd)
      calls := fs.calls ++ [.fileClose file] }

/-- The call `os.Rename(oldpath, newpath)`: `none` when it fails (by `fails`, or because
`oldpath` does not exist); otherwise `newpath` names the inode that `oldpath` named,
replacing whatever `newpath` named before. -/
def FS.osRename (fs : FS) (oldpath newpath : Str) (fails : Bool) : Bool × FS :=
  match fs.dir oldpath with
  | none => (false, fs.record (.osRename oldpath newpath false))
  | some ino =>
    if fails then (false, fs.record (.osRename oldpath newpath false))
    else
      (true,
        { fs with
          dir := Function.update (Function.update fs.dir oldpath none) newpath (some ino)
          calls := fs.calls ++ [.osRename oldpath newpath true] })

/-- A `bufio.Writer` of size `defaultBufSize` around an open file. -/
structure Writer where
  /-- The descriptor of the underlying file. -/
  fd : Nat
  /-- The buffered bytes `b.buf[0:b.n]`. -/
  buf : Str
  /-- Whether the sticky error `b.err` is set. -/
  err : Bool
deriving DecidableEq

/-- The library method `(*bufio.Writer).Flush`. -/
def Writer.Flush (w : Writer) (fs : FS) (fault : Option Nat) : Writer × FS :=
  if w.err then (w, fs)
  else if w.buf = [] then (w, fs)
  else
    match fs.fileWrite (some w.fd) w.buf fault with
    | (n, true, fs1) => ({ w with buf := w.buf.drop n, err := true }, fs1)
    | (_, false, fs1) => ({ w with buf := [] }, fs1)

/-- The loop of the library method `(*bufio.Writer).WriteString`: while the rest of the string
does not fit and no error is set, fill the buffer and flush it; then copy the rest. -/
def Writer.writeLoop (fault : Option Nat) : Nat → Writer → FS → Str → Nat → Nat × Writer × FS
  | 0, w, fs, s, nn =>
    if w.err then (nn, w, fs) else (nn + s.length, { w with buf := w.buf ++ s }, fs)
  | fuel + 1, w, fs, s, nn =>
    if s.length > defaultBufSize - w.buf.length ∧ w.err = false then
      let n := min s.length (defaultBufSize - w.buf.length)
      match Writer.Flush { w with buf := w.buf ++ s.take n } fs fault with
      | (w1, fs1) => Writer.writeLoop fault fuel w1 fs1 (s.drop n) (nn + n)
    else if w.err then (nn, w, fs)
    else (nn + s.length, { w with buf := w.buf ++ s }, fs)

/-- The library method `(*bufio.Writer).WriteString`: the number of bytes accepted, the
writer and the file system afterwards. -/
def Writer.WriteString (w : Writer) (fs : FS) (s : Str) (fault : Option Nat) :
    Nat × Writer × FS :=
  match Writer.writeLoop fault (s.length + 2) w fs s 0 with
  | (nn, w1, fs1) => (nn, w1, fs1.record (.writeString s nn))

/-! ## The logger (shlog.go, lines 43-223 and 298-397) -/

/-- The struct `Rotation`. -/
structure Rotation where
  rotationType : Int
  rotatedLogDir : Str
  rotationSize : Int
  currentFileSize : Int
  currentFileDate : Str
deriving DecidableEq

/-- The struct `LOG` (the mutex `writeLocker` has no sequential content).  `file` is the
pointer `*os.File` (`none` is nil, `some fd` a descriptor, open or closed), `writer` the
pointer `*bufio.Writer`, `rotation` the pointer `*Rotation`. -/
structure LOG where
  logFilePath : Str
  file : Option Nat
  writer : Option Writer
  rotation : Option Rotation
  logLevel : Int
  logType : Int
deriving DecidableEq

/-- Why a call did not return: a Go run-time panic or an explicit `panic(err)`. -/
inductive Panic
  | indexOutOfRange
  | nilDereference
  | ioError
deriving DecidableEq

/-- How a call of `Log` ends: `return nil`, `return errSeverityLevel`, or a panic. -/
inductive Outcome
  | success
  | severityExcluded
  | panic (p : Panic)
deriving DecidableEq

/-- What one execution of `openFile` meets in its environment. -/
structure OpenEnv where
  /-- Whether `os.OpenFile` fails. -/
  openFails : Bool
  /-- Whether `file.Stat()` fails. -/
  statFails : Bool
  /-- The clock reading of `getCurrentDateString`. -/
  now : Time

/-- What one call of `Log` meets in its environment. -/
structure Env where
  /-- The clock reading of `getLogTime` (line 178). -/
  now : Time
  /-- The result of `runtime.Caller(2)`: `some (file, line)` when `ok`. -/
  caller : Option (Str × Int)
  /-- The lazy `openFile` of line 189. -/
  lazyOpen : OpenEnv
  /-- The fault, if any, of the writes to the file at lines 203/205. -/
  writeFault : Option Nat
  /-- The clock reading of `getCurrentDateString` at line 216. -/
  checkNow : Time
  /-- The fault, if any, of the `Flush` in a rotation. -/
  flushFault : Option Nat
  /-- Whether the `os.Rename` of a rotation fails. -/
  renameFails : Bool
  /-- The `openFile` of a rotation. -/
  reopen : OpenEnv
  /-- The clock reading of `getCurrentDateString` at line 394. -/
  setNow : Time

/-- The function `InitLogger`. -/
def InitLogger : LOG :=
  { logFilePath := "data.log".toList
    file := none
    writer := none
    rotation := none
    logLevel := Trace
    logType := Synchronous }

def LOG.SetLogType (log : LOG) (logType : Int) : LOG :=
  { log with logType := logType }

def LOG.SetLogLevel (log : LOG) (logLevel : Int) : LOG :=
  { log with logLevel := logLevel }

/-- The path rewriting of `pathIsValid`: a trailing `/` is removed.  `none` is the panic of
indexing the empty string.  The directory checks themselves are the caller's `valid`. -/
def pathIsValid (path : Str) : Option Str :=
  match path.getLast? with
  | none => none
  | some c => if c = '/' then some path.dropLast else some path

/-- The method `SetLogDirectory`; `valid` tells whether the directory passed the checks of
`pathIsValid`; `none` is a panic. -/
def LOG.SetLogDirectory (log : LOG) (logDirectory : Str) (valid : Bool) : Option LOG :=
  match pathIsValid logDirectory with
  | none => none
  | some d => if valid then some { log with logFilePath := d ++ "/data.log".toList } else none

/-- The method `SetLogRotation`; `valid` tells whether the directory passed the checks of
`pathIsValid`; `none` is a panic. -/
def LOG.SetLogRotation (log : LOG) (rotatedLogDir : Str) (rotationType : Int) (valid : Bool) :
    Option LOG :=
  if rotationType ≠ SizeBasedRotation ∧ rotationType ≠ TimeBasedRotation then none
  else
    match pathIsValid rotatedLogDir with
    | none => none
    | some d =>
      if valid then
        some { log with
          rotation := some
            { rotationType := rotationType
              rotatedLogDir := d
              rotationSize := defaultRotationSize
              currentFileSize := 0
              currentFileDate := [] } }
      else none

/-- How `openFile` ends. -/
inductive OpenResult
  | done (log : LOG) (fs : FS)
  | failed (log : LOG) (fs : FS)
  | panicked (p : Panic) (log : LOG) (fs : FS)

/-- The logger and the file system `openFile` leaves behind. -/
def OpenResult.state : OpenResult → LOG × FS
  | .done log fs => (log, fs)
  | .failed log fs => (log, fs)
  | .panicked _ log fs => (log, fs)

/-- The method `openFile` (lines 298-320).  `failed` is `return err`; the panics are the
explicit one after `file.Stat()` and the nil dereference of `log.rotation` at line 315. -/
def LOG.openFile (log : LOG) (fs : FS) (e : OpenEnv) : OpenResult :=
  match fs.osOpenFile log.logFilePath e.openFails with
  | (none, fs1) => .failed log fs1
  | (some fd, fs1) =>
    let log1 : LOG :=
      if log.logType = Asynchronous then
        { log with writer := some { fd := fd, buf := [], err := false } }
      else { log with file := some fd }
    if e.statFails then .panicked .ioError log1 fs1
    else
      match log1.rotation with
      | none => .panicked .nilDereference log1 fs1
      | some r =>
        .done
          { log1 with
            rotation := some
              { r with
                currentFileSize := (fs1.statSize fd : Int)
                currentFileDate := getCurrentDateString e.now } }
          fs1

/-- The name a rotation moves the active file to:
`log.rotation.rotatedLogDir + "/" + timePrefix + "-data.log"`. -/
def rotatedFile (rotatedLogDir timeStamp : Str) : Str :=
  rotatedLogDir ++ ['/'] ++ timeStamp ++ "-data.log".toList

/-- How a rotation ends: it returns, or it panics. -/
inductive RotationResult
  | done (log : LOG) (fs : FS)
  | panicked (p : Panic) (log : LOG) (fs : FS)

/-- The logger and the file system a rotation leaves behind. -/
def RotationResult.state : RotationResult → LOG × FS
  | .done log fs => (log, fs)
  | .panicked _ log fs => (log, fs)

/-- The statement `if log.writer != nil { log.writer.Flush() }`, the error discarded. -/
def LOG.flushWriter (log : LOG) (fs : FS) (fault : Option Nat) : LOG × FS :=
  match log.writer with
  | some w => ({ log with writer := some (w.Flush fs fault).1 }, (w.Flush fs fault).2)
  | none => (log, fs)

/-- The common first part of both rotations (lines 344-361 and 373-390): flush the writer,
close `log.file`, rename the active file, set `log.writer = nil`, call `openFile` and
discard the error it returns. -/
def LOG.rotate (log : LOG) (fs : FS) (env : Env) (timeStamp : Str) : RotationResult :=
  let log1 := (log.flushWriter fs env.flushFault).1
  let fs1 := (log.flushWriter fs env.flushFault).2
  let fs2 := fs1.fileClose log1.file
  match log1.rotation with
  | none => .panicked .nilDereference log1 fs2
  | some r =>
    match fs2.osRename log1.logFilePath (rotatedFile r.rotatedLogDir timeStamp)
        env.renameFails with
    | (false, fs3) => .panicked .ioError log1 fs3
    | (true, fs3) =>
      match LOG.openFile { log1 with writer := none } fs3 env.reopen with
      | .done log2 fs4 => .done log2 fs4
      | .failed log2 fs4 => .done log2 fs4
      | .panicked p log2 fs4 => .panicked p log2 fs4

/-- The method `sizeBasedRotation` (lines 343-364). -/
def LOG.sizeBasedRotation (log : LOG) (fs : FS) (env : Env) (timeStamp : Str) :
    RotationResult :=
  log.rotate fs env timeStamp

/-- The method `timeBasedRotation` (lines 371-397): as `sizeBasedRotation`, then
`currentFileSize = 0` and `currentFileDate = getCurrentDateString()`. -/
def LOG.timeBasedRotation (log : LOG) (fs : FS) (env : Env) (timeStamp : Str) :
    RotationResult :=
  match log.rotate fs env timeStamp with
  | .panicked p log1 fs1 => .panicked p log1 fs1
  | .done log1 fs1 =>
    match log1.rotation with
    | none => .panicked .nilDereference log1 fs1
    | some r =>
      .done
        { log1 with
          rotation := some
            { r with currentFileSize := 0, currentFileDate := getCurrentDateString env.setNow } }
        fs1

/-- The write of lines 202-206: to the file when `log.writer == nil`, else to the writer.
The error is discarded; the result is `writtenByteNum` and the state afterwards. -/
def LOG.write (log : LOG) (fs : FS) (msg : Str) (fault : Option Nat) : Nat × LOG × FS :=
  match log.writer with
  | none =>
    match fs.fileWrite log.file msg fault with
    | (n, _, fs1) => (n, log, fs1)
  | some w =>
    match w.WriteString fs msg fault with
    | (n, w1, fs1) => (n, { log with writer := some w1 }, fs1)

/-- Lines 207-222 of `Log`: add `writtenByteNum` to `currentFileSize` (a nil dereference when
there is no rotation), then the two rotation checks. -/
def LOG.afterWrite (log : LOG) (fs : FS) (env : Env) (timeStamp : Str) (n : Nat) :
    Outcome × LOG × FS :=
  match log.rotation with
  | none => (.panic .nilDereference, log, fs)
  | some r =>
    let r1 : Rotation := { r with currentFileSize := r.currentFileSize + (n : Int) }
    let log1 : LOG := { log with rotation := some r1 }
    match (if r1.rotationType = SizeBasedRotation ∧ r1.currentFileSize ≥ r1.rotationSize then
        log1.sizeBasedRotation fs env timeStamp else .done log1 fs) with
    | .panicked p log2 fs2 => (.panic p, log2, fs2)
    | .done log2 fs2 =>
      match log2.rotation with
      | none => (.success, log2, fs2)
      | some r2 =>
        if r2.rotationType = TimeBasedRotation ∧
            r2.currentFileDate ≠ getCurrentDateString env.checkNow then
          match log2.timeBasedRotation fs2 env timeStamp with
          | .panicked p log3 fs3 => (.panic p, log3, fs3)
          | .done log3 fs3 => (.success, log3, fs3)
        else (.success, log2, fs2)

/-- The lazy open of lines 188-193. -/
def LOG.ensureOpen (log : LOG) (fs : FS) (e : OpenEnv) : OpenResult :=
  if log.file = none ∧ log.writer = none then log.openFile fs e else .done log fs

/-- The method `Log` (lines 175-223). -/
def LOG.Log (log : LOG) (fs : FS) (env : Env) (level : Int) (data : Str) :
    Outcome × LOG × FS :=
  let logTime := getLogTime env.now
  let logPlace := getLogFilePlace env.caller
  match severityName level with
  | none => (.panic .indexOutOfRange, log, fs)
  | some logSeverityName =>
    match log.ensureOpen fs env.lazyOpen with
    | .failed log1 fs1 => (.panic .ioError, log1, fs1)
    | .panicked p log1 fs1 => (.panic p, log1, fs1)
    | .done log1 fs1 =>
      if level < 0 ∨ level > 4 ∨ level < log1.logLevel then (.severityExcluded, log1, fs1)
      else
        match log1.write fs1 (formatRecord logSeverityName logTime logPlace data)
            env.writeFault with
        | (n, log2, fs2) => log2.afterWrite fs2 env logTime n

/-- The method `Release` (lines 161-166): flush the writer if there is one, close `log.file`. -/
def LOG.Release (log : LOG) (fs : FS) (fault : Option Nat) : LOG × FS :=
  ((log.flushWriter fs fault).1, (log.flushWriter fs fault).2.fileClose log.file)

/-! ## Vocabulary for the statements -/

/-- No file-system call of this `Log` call fails. -/
def Env.Calm (env : Env) : Prop :=
  env.lazyOpen.openFails = false ∧ env.lazyOpen.statFails = false ∧ env.writeFault = none ∧
  env.flushFault = none ∧ env.renameFails = false ∧
  env.reopen.openFails = false ∧ env.reopen.statFails = false

/-- The descriptor the logger currently writes through: the one inside the writer when
there is a writer, else `log.file`. -/
def LOG.activeFd (log : LOG) : Option Nat :=
  match log.writer with
  | some w => some w.fd
  | none => log.file

/-- The bytes accepted by the writer and not yet written to the file. -/
def LOG.pending (log : LOG) : Str :=
  match log.writer with
  | some w => w.buf
  | none => []

/-- Every inode named by the directory has been allocated. -/
def FS.Bounded (fs : FS) : Prop :=
  ∀ p i, fs.dir p = some i → i < fs.nextIno

/-- The logger has not opened its file yet (the state `InitLogger` and the setters leave). -/
def LOG.Unopened (log : LOG) : Prop :=
  log.file = none ∧ log.writer = none

/-- The logger holds an open descriptor on the file that `logFilePath` names, and its
writer, if any, is in working order. -/
def LOG.Opened (log : LOG) (fs : FS) : Prop :=
  (∃ fd, log.activeFd = some fd ∧ fd ∈ fs.openFds ∧
    fs.dir log.logFilePath = some (fs.fdIno fd)) ∧
  (∀ w, log.writer = some w → w.err = false ∧ w.buf.length ≤ defaultBufSize)

/-- The path is one that `InitLogger` or `SetLogDirectory` produces. -/
def LOG.PathSet (log : LOG) : Prop :=
  log.logFilePath = "data.log".toList ∨ ∃ d, log.logFilePath = d ++ "/data.log".toList

/-- The size of the file a path names, `0` when there is none. -/
def FS.sizeAt (fs : FS) (path : Str) : Nat :=
  match fs.dir path with
  | some i => (fs.data i).length
  | none => 0

/-- The content of the file a path names, empty when there is none. -/
def FS.contentAt (fs : FS) (path : Str) : Str :=
  match fs.dir path with
  | some i => fs.data i
  | none => []

/-- The size the logger accounts for the active file: `currentFileSize` once the file is
open, and before that the size the lazy open will read from the disk. -/
def LOG.sizeNow (log : LOG) (fs : FS) : Int :=
  if log.file = none ∧ log.writer = none then (fs.sizeAt log.logFilePath : Int)
  else
    match log.rotation with
    | some r => r.currentFileSize
    | none => 0

/-- The day the next write is compared with under time-based rotation: `currentFileDate`
once the file is open, and before that the day the lazy open will capture. -/
def LOG.dateNow (log : LOG) (e : OpenEnv) : Str :=
  if log.file = none ∧ log.writer = none then getCurrentDateString e.now
  else
    match log.rotation with
    | some r => r.currentFileDate
    | none => []

/-- The successful renames among the calls made so far, oldest first. -/
def FS.renames (fs : FS) : List (Str × Str) :=
  fs.calls.filterMap fun c =>
    match c with
    | .osRename o n true => some (o, n)
    | _ => none

/-- Between `fs` and `fs1` only the content of inode `ino` and the record of calls may
differ, and no rename has been made. -/
def FS.SameBut (fs fs1 : FS) (ino : Nat) : Prop :=
  fs1.dir = fs.dir ∧ fs1.nextIno = fs.nextIno ∧ fs1.fdIno = fs.fdIno ∧
  fs1.openFds = fs.openFds ∧ fs1.nextFd = fs.nextFd ∧ fs1.renames = fs.renames ∧
  ∀ i, i ≠ ino → fs1.data i = fs.data i

/-- From `fs` to `fs1` calls have only been added to the record, every rename among them is
one of `path` to `rot`, and no directory entry other than those of `path` and `rot` has
changed. -/
def FS.Step (path rot : Str) (fs fs1 : FS) : Prop :=
  (∃ post, fs1.calls = fs.calls ++ post ∧
    ∀ o n ok, IOCall.osRename o n ok ∈ post → o = path ∧ n = rot) ∧
  ∀ p, p ≠ path → p ≠ rot → fs1.dir p = fs.dir p

/-- The logger `log1` has the path of `log` and, if `log` has a rotation, one with the same
kind, directory and threshold. -/
def LOG.SameSetup (log log1 : LOG) : Prop :=
  log1.logFilePath = log.logFilePath ∧
  ∀ r, log.rotation = some r →
    ∃ r1, log1.rotation = some r1 ∧ r1.rotatedLogDir = r.rotatedLogDir ∧
      r1.rotationType = r.rotationType ∧ r1.rotationSize = r.rotationSize

/-- One call `Log(level, data)` together with what it meets in its environment. -/
structure Call where
  env : Env
  level : Int
  data : Str

/-- The record a call hands to the file or the writer when it is not filtered. -/
def Call.record (c : Call) : Str :=
  formatRecord ((severityName c.level).getD []) (getLogTime c.env.now)
    (getLogFilePlace c.env.caller) c.data

/-- The total length of the records of a list of calls. -/
def totalLength : List Call → Nat
  | [] => 0
  | c :: cs => c.record.length + totalLength cs

/-- The records of a list of calls, one after the other. -/
def allRecords : List Call → Str
  | [] => []
  | c :: cs => c.record ++ allRecords cs

/-- Successive calls of `Log`; `none` as soon as one of them panics. -/
def LOG.logAll (log : LOG) (fs : FS) : List Call → Option (LOG × FS)
  | [] => some (log, fs)
  | c :: cs =>
    match log.Log fs c.env c.level c.data with
    | (.panic _, _, _) => none
    | (_, log1, fs1) => LOG.logAll log1 fs1 cs

/-- Reading a record back by cutting it at the first occurrence of each separator:
the severity ends at the first space, the time stamp at the first `-`, the caller location at
the next space, and the text is the rest without its final newline.  This reader is not part
of shlog.go; it states what "parsing back" means for the documented format. -/
def parseRecord (s : Str) : Str × Str × Str × Str :=
  let severity := s.takeWhile (fun c => c ≠ ' ')
  let s1 := s.drop (severity.length + 2)
  let timeSp := s1.takeWhile (fun c => c ≠ '-')
  let s2 := s1.drop (timeSp.length + 2)
  let placeCo := s2.takeWhile (fun c => c ≠ ' ')
  let s3 := s2.drop (placeCo.length + 2)
  (severity, timeSp.dropLast, placeCo.dropLast, s3.dropLast)

/-! ## Concrete inputs -/

/-- A file system with no file and no open descriptor; 0, 1 and 2 are the standard streams. -/
def emptyFS : FS :=
  { dir := fun _ => none
    data := fun _ => []
    nextIno := 0
    fdIno := fun _ => 0
    openFds := []
    nextFd := 3
    calls := [] }

def day4 : Time := { year := 2026, month := 11, day := 4, hour := 23, min := 59, sec := 58 }
def day5 : Time := { year := 2026, month := 11, day := 5, hour := 0, min := 0, sec := 1 }

/-- An environment without fault: `now` is read by `getLogTime` and the lazy open, `later`
by everything after the write. -/
def calmEnv (now later : Time) : Env :=
  { now := now
    caller := some ("/home/app/main.go".toList, 32)
    lazyOpen := { openFails := false, statFails := false, now := now }
    writeFault := none
    checkNow := later
    flushFault := none
    renameFails := false
    reopen := { openFails := false, statFails := false, now := later }
    setNow := later }

/-- The logger after `InitLogger().SetLogRotation("rotated", rotationType)`. -/
def rotatingLogger (rotationType : Int) : LOG :=
  { InitLogger with
    rotation := some
      { rotationType := rotationType
        rotatedLogDir := "rotated".toList
        rotationSize := defaultRotationSize
        currentFileSize := 0
        currentFileDate := [] } }

/-- The logger after
`InitLogger().SetLogRotation("rotated", TimeBasedRotation).SetLogType(Asynchronous)`. -/
def asyncLogger : LOG :=
  (rotatingLogger TimeBasedRotation).SetLogType Asynchronous

/-- An environment in which the write to the file fails before any byte is written. -/
def failingWriteEnv : Env :=
  { calmEnv day4 day4 with writeFault := some 0 }

/-- An environment on a new day in which the `openFile` of the rotation fails. -/
def failingReopenEnv : Env :=
  { calmEnv day4 day5 with reopen := { openFails := true, statFails := false, now := day5 } }

/-- An environment on a new day in which the `os.Rename` of the rotation fails. -/
def failingRenameEnv : Env :=
  { calmEnv day4 day5 with renameFails := true }

/-- An environment in which the lazy `os.OpenFile` fails. -/
def failingOpenEnv : Env :=
  { calmEnv day4 day4 with lazyOpen := { openFails := true, statFails := false, now := day4 } }

/-- A file system whose only file is one rotated on 3 November. -/
def archiveFS : FS :=
  { emptyFS with
    dir := fun p => if p = "rotated/2026 November 3 10:0:0-data.log".toList then some 0 else none
    data := fun i => if i = 0 then "old\n".toList else []
    nextIno := 1 }

/-- A file system left by an earlier run: `data.log` holds 1048570 bytes, six bytes short of
`defaultRotationSize`. -/
def restartFS : FS :=
  { emptyFS with
    dir := fun p => if p = "data.log".toList then some 0 else none
    data := fun i => if i = 0 then List.replicate 1048570 'z' else []
    nextIno := 1 }

/-- A text of `defaultRotationSize` bytes, all equal to `c`. -/
def bigText (c : Char) : Str :=
  List.replicate 1048576 c

/-! # Theorems -/

/-! ## Writes through `os.File` and `bufio.Writer` without fault -/

theorem FS.SameBut.sameBut_refl (fs : FS) (ino : Nat) : FS.SameBut fs fs ino :=
  ⟨rfl, rfl, rfl, rfl, rfl, rfl, fun _ _ => rfl⟩

theorem FS.SameBut.sameBut_trans {a b c : FS} {ino : Nat} (h1 : FS.SameBut a b ino)
    (h2 : FS.SameBut b c ino) : FS.SameBut a c ino := by
  obtain ⟨a1, a2, a3, a4, a5, a6, a7⟩ := h1
  obtain ⟨b1, b2, b3, b4, b5, b6, b7⟩ := h2
  exact ⟨b1.trans a1, b2.trans a2, b3.trans a3, b4.trans a4, b5.trans a5, b6.trans a6,
    fun i hi => (b7 i hi).trans (a7 i hi)⟩

theorem fileWrite_ok (fs : FS) (fd : Nat) (b : Str) (hfd : fd ∈ fs.openFds) :
    ∃ fs1, fs.fileWrite (some fd) b none = (b.length, false, fs1) ∧
      FS.SameBut fs fs1 (fs.fdIno fd) ∧
      fs1.data (fs.fdIno fd) = fs.data (fs.fdIno fd) ++ b ∧
      fs1.calls = fs.calls ++ [.fileWrite (some fd) b b.length] := by
  refine ⟨{ fs with
      data := Function.update fs.data (fs.fdIno fd) (fs.data (fs.fdIno fd) ++ b)
      calls := fs.calls ++ [.fileWrite (some fd) b b.length] }, ?_, ?_, ?_, ?_⟩
  · simp only [FS.fileWrite, hfd, if_true, Option.isSome_none, List.take_length]
  · refine ⟨rfl, rfl, rfl, rfl, rfl, ?_, ?_⟩
    · simp [FS.renames, List.filterMap_append]
    · intro i hi
      simp [Function.update_noteq hi]
  · simp
  · rfl

theorem Flush_ok (w : Writer) (fs : FS) (herr : w.err = false) (hfd : w.fd ∈ fs.openFds) :
    ∃ fs1, w.Flush fs none = ({ w with buf := [] }, fs1) ∧
      FS.SameBut fs fs1 (fs.fdIno w.fd) ∧
      fs1.data (fs.fdIno w.fd) = fs.data (fs.fdIno w.fd) ++ w.buf ∧
      ∃ post, fs1.calls = fs.calls ++ post ∧ ∀ c ∈ post, ∃ b n, c = .fileWrite (some w.fd) b n := by
  unfold Writer.Flush
  by_cases hb : w.buf = []
  · refine ⟨fs, ?_, FS.SameBut.sameBut_refl _ _, ?_, [], by simp, by simp⟩
    · simp only [herr, hb, if_true, Bool.false_eq_true, if_false]
      cases w; simp_all
    · simp [hb]
  · obtain ⟨fs1, h1, h2, h3, h4⟩ := fileWrite_ok fs w.fd w.buf hfd
    refine ⟨fs1, ?_, h2, h3, _, h4, ?_⟩
    · simp only [herr, hb, Bool.false_eq_true, if_false, h1]
    · intro c hc
      simp at hc
      exact ⟨_, _, hc⟩

theorem writeLoop_ok (fuel : Nat) : ∀ (w : Writer) (fs : FS) (s : Str) (nn : Nat),
    w.err = false → w.fd ∈ fs.openFds → w.buf.length ≤ defaultBufSize →
    s.length ≤ (defaultBufSize - w.buf.length) + fuel * defaultBufSize →
    ∃ w1 fs1, Writer.writeLoop none fuel w fs s nn = (nn + s.length, w1, fs1) ∧
      w1.err = false ∧ w1.fd = w.fd ∧ w1.buf.length ≤ defaultBufSize ∧
      FS.SameBut fs fs1 (fs.fdIno w.fd) ∧
      fs1.data (fs.fdIno w.fd) ++ w1.buf = fs.data (fs.fdIno w.fd) ++ w.buf ++ s ∧
      ∃ post, fs1.calls = fs.calls ++ post ∧
        ∀ c ∈ post, ∃ b n, c = .fileWrite (some w.fd) b n := by
  induction fuel with
  | zero =>
    intro w fs s nn herr hfd hlen hs
    refine ⟨{ w with buf := w.buf ++ s }, fs, ?_, herr, rfl, ?_, FS.SameBut.sameBut_refl _ _, ?_, [], ?_, ?_⟩
    · simp [Writer.writeLoop, herr]
    · simp only [List.length_append]; omega
    · simp
    · simp
    · simp
  | succ fuel ih =>
    intro w fs s nn herr hfd hlen hs
    by_cases hbig : s.length > defaultBufSize - w.buf.length
    · have hmin : min s.length (defaultBufSize - w.buf.length) = defaultBufSize - w.buf.length := by
        omega
      obtain ⟨fs1, hfl, hsame, hdata, post1, hcalls1, hpost1⟩ :=
        Flush_ok { w with buf := w.buf ++ s.take (defaultBufSize - w.buf.length) } fs herr hfd
      have hfd1 : w.fd ∈ fs1.openFds := by rw [hsame.2.2.2.1]; exact hfd
      have hino : fs1.fdIno = fs.fdIno := hsame.2.2.1
      obtain ⟨w2, fs2, hloop, herr2, hfd2, hlen2, hsame2, hdata2, post2, hcalls2, hpost2⟩ :=
        ih { w with buf := [] } fs1 (s.drop (defaultBufSize - w.buf.length))
          (nn + (defaultBufSize - w.buf.length)) herr hfd1 (by simp)
          (by simp only [List.length_drop, List.length_nil]; rw [Nat.succ_mul] at hs; omega)
      refine ⟨w2, fs2, ?_, herr2, hfd2, hlen2, ?_, ?_, post1 ++ post2, ?_, ?_⟩
      · simp only [Writer.writeLoop, hbig, herr, and_self, if_true, hmin]
        simp only [herr] at hfl hloop
        rw [hfl]
        simp only
        rw [hloop]
        simp only [List.length_drop, Prod.mk.injEq, and_true]
        omega
      · rw [hino] at hsame2
        exact FS.SameBut.sameBut_trans hsame hsame2
      · simp only [hino] at hdata2
        rw [hdata2, hdata]
        simp
      · rw [hcalls2, hcalls1]; simp
      · intro c hc
        rcases List.mem_append.1 hc with h | h
        · exact hpost1 c h
        · exact hpost2 c h
    · refine ⟨{ w with buf := w.buf ++ s }, fs, ?_, herr, rfl, ?_, FS.SameBut.sameBut_refl _ _, ?_, [], ?_, ?_⟩
      · simp [Writer.writeLoop, herr, hbig]
      · simp only [List.length_append]; omega
      · simp
      · simp
      · simp

theorem WriteString_ok (w : Writer) (fs : FS) (s : Str)
    (herr : w.err = false) (hfd : w.fd ∈ fs.openFds) (hlen : w.buf.length ≤ defaultBufSize) :
    ∃ w1 fs1, w.WriteString fs s none = (s.length, w1, fs1) ∧
      w1.err = false ∧ w1.fd = w.fd ∧ w1.buf.length ≤ defaultBufSize ∧
      FS.SameBut fs fs1 (fs.fdIno w.fd) ∧
      fs1.data (fs.fdIno w.fd) ++ w1.buf = fs.data (fs.fdIno w.fd) ++ w.buf ++ s ∧
      ∃ pre, fs1.calls = fs.calls ++ pre ++ [.writeString s s.length] ∧
        ∀ c ∈ pre, ∃ b n, c = .fileWrite (some w.fd) b n := by
  obtain ⟨w1, fs1, hloop, herr1, hfd1, hlen1, hsame, hdata, post, hcalls, hpost⟩ :=
    writeLoop_ok (s.length + 2) w fs s 0 herr hfd hlen (by
      have : 0 < defaultBufSize := by decide
      nlinarith)
  refine ⟨w1, fs1.record (.writeString s s.length), ?_, herr1, hfd1, hlen1, ?_, hdata, post, ?_,
    hpost⟩
  · simp only [Writer.WriteString, hloop, Nat.zero_add]
  · obtain ⟨a1, a2, a3, a4, a5, a6, a7⟩ := hsame
    refine ⟨a1, a2, a3, a4, a5, ?_, a7⟩
    rw [← a6]
    simp [FS.renames, FS.record, List.filterMap_append]
  · simp [FS.record, hcalls]

/-! ## Opening the file -/

theorem severityName_none (level : Int) (h : level < 0 ∨ 4 < level) : severityName level = none := by
  unfold severityName
  rcases h with h | h
  · simp [h]
  · have : ¬ level < 0 := by omega
    simp only [this, if_false]
    have h5 : 5 ≤ level.toNat := by omega
    simp [severityLevels, List.get?_eq_none]
    omega

theorem severityName_some (level : Int) (h0 : 0 ≤ level) (h4 : level ≤ 4) :
    ∃ nm, severityName level = some nm ∧ nm ∈ severityLevels := by
  have : level = 0 ∨ level = 1 ∨ level = 2 ∨ level = 3 ∨ level = 4 := by omega
  rcases this with h | h | h | h | h <;> subst h <;> simp [severityName, severityLevels]

theorem FS.SameBut.sameBut_bounded {fs fs1 : FS} {ino : Nat} (h : FS.SameBut fs fs1 ino)
    (hb : fs.Bounded) : fs1.Bounded := by
  intro p i hp
  rw [h.1] at hp
  rw [h.2.1]
  exact hb p i hp

theorem openFile_ok (log : LOG) (fs : FS) (e : OpenEnv) (r : Rotation)
    (hw : log.writer = none) (hrot : log.rotation = some r)
    (ho : e.openFails = false) (hs : e.statFails = false) (hb : fs.Bounded) :
    ∃ log1 fs1 ino, log.openFile fs e = .done log1 fs1 ∧
      log1.Opened fs1 ∧ fs1.Bounded ∧
      log1.rotation = some { r with
        currentFileSize := (fs.sizeAt log.logFilePath : Int)
        currentFileDate := getCurrentDateString e.now } ∧
      log1.logFilePath = log.logFilePath ∧ log1.logLevel = log.logLevel ∧
      log1.logType = log.logType ∧ log1.pending = [] ∧
      fs1.renames = fs.renames ∧
      fs1.dir log.logFilePath = some ino ∧ log1.activeFd = some fs.nextFd ∧
      fs1.fdIno fs.nextFd = ino ∧ fs1.data ino = fs.contentAt log.logFilePath ∧
      (fs.dir log.logFilePath = none → ino = fs.nextIno) ∧
      (∀ j, fs.dir log.logFilePath = some j → ino = j) ∧
      (∀ p, p ≠ log.logFilePath → fs1.dir p = fs.dir p) ∧
      (∀ i, i < fs.nextIno → fs1.data i = fs.data i) ∧
      fs1.calls = fs.calls ++ [.osOpenFile log.logFilePath (some fs.nextFd)] ∧
      fs1.openFds = fs.nextFd :: fs.openFds := by
  unfold LOG.openFile FS.osOpenFile
  cases hd : fs.dir log.logFilePath with
  | none =>
    by_cases ht : log.logType = Asynchronous
    · simp only [ho, hs, ht, hrot, if_true, if_false, Bool.false_eq_true]
      refine ⟨_, _, fs.nextIno, rfl, ⟨⟨fs.nextFd, ?_, ?_, ?_⟩, ?_⟩, ?_, ?_, rfl, rfl, rfl, ?_, ?_, ?_,
        ?_, ?_, ?_, ?_, ?_, ?_, ?_, rfl, rfl⟩
      · simp [LOG.activeFd]
      · simp
      · simp
      · intro w hw1; simp at hw1; subst hw1; simp
      · intro p i hp
        show i < fs.nextIno + 1
        simp only [Function.update_apply] at hp
        split at hp
        · simp at hp; omega
        · have := hb p i hp; omega
      · have h1 : Function.update fs.fdIno fs.nextFd fs.nextIno fs.nextFd = fs.nextIno :=
          Function.update_same _ _ _
        have h2 : Function.update fs.data fs.nextIno ([] : Str) fs.nextIno = [] :=
          Function.update_same _ _ _
        simp only [FS.sizeAt, FS.statSize, hd]
        rw [h1, h2]
        rfl
      · simp [LOG.pending]
      · simp [FS.renames, List.filterMap_append]
      · simp
      · simp [LOG.activeFd]
      · simp
      · simp [FS.contentAt, hd]
      · intro _; rfl
      · intro j h; simp at h
      · intro p hp; simp [Function.update_noteq hp]
      · intro i hi
        have : i ≠ fs.nextIno := by omega
        simp [Function.update_noteq this]
    · simp only [ho, hs, ht, hrot, if_true, if_false, Bool.false_eq_true]
      refine ⟨_, _, fs.nextIno, rfl, ⟨⟨fs.nextFd, ?_, ?_, ?_⟩, ?_⟩, ?_, ?_, rfl, rfl, rfl, ?_, ?_, ?_,
        ?_, ?_, ?_, ?_, ?_, ?_, ?_, rfl, rfl⟩
      · simp [LOG.activeFd, hw]
      · simp
      · simp
      · intro w hw1; simp [hw] at hw1
      · intro p i hp
        show i < fs.nextIno + 1
        simp only [Function.update_apply] at hp
        split at hp
        · simp at hp; omega
        · have := hb p i hp; omega
      · have h1 : Function.update fs.fdIno fs.nextFd fs.nextIno fs.nextFd = fs.nextIno :=
          Function.update_same _ _ _
        have h2 : Function.update fs.data fs.nextIno ([] : Str) fs.nextIno = [] :=
          Function.update_same _ _ _
        simp only [FS.sizeAt, FS.statSize, hd]
        rw [h1, h2]
        rfl
      · simp [LOG.pending, hw]
      · simp [FS.renames, List.filterMap_append]
      · simp
      · simp [LOG.activeFd, hw]
      · simp
      · simp [FS.contentAt, hd]
      · intro _; rfl
      · intro j h; simp at h
      · intro p hp; simp [Function.update_noteq hp]
      · intro i hi
        have : i ≠ fs.nextIno := by omega
        simp [Function.update_noteq this]
  | some ino =>
    by_cases ht : log.logType = Asynchronous
    · simp only [ho, hs, ht, hrot, if_true, if_false, Bool.false_eq_true]
      refine ⟨_, _, ino, rfl, ⟨⟨fs.nextFd, ?_, ?_, ?_⟩, ?_⟩, ?_, ?_, rfl, rfl, rfl, ?_, ?_, ?_,
        ?_, ?_, ?_, ?_, ?_, ?_, ?_, rfl, rfl⟩
      · simp [LOG.activeFd]
      · simp
      · simp [hd]
      · intro w hw1; simp at hw1; subst hw1; simp
      · intro p i hp; exact hb p i hp
      · simp [FS.sizeAt, FS.statSize, hd]
      · simp [LOG.pending]
      · simp [FS.renames, List.filterMap_append]
      · simp [hd]
      · simp [LOG.activeFd]
      · simp
      · simp [FS.contentAt, hd]
      · intro h; simp at h
      · intro j h; exact Option.some.inj h
      · intro p _; rfl
      · intro i _; rfl
    · simp only [ho, hs, ht, hrot, if_true, if_false, Bool.false_eq_true]
      refine ⟨_, _, ino, rfl, ⟨⟨fs.nextFd, ?_, ?_, ?_⟩, ?_⟩, ?_, ?_, rfl, rfl, rfl, ?_, ?_, ?_,
        ?_, ?_, ?_, ?_, ?_, ?_, ?_, rfl, rfl⟩
      · simp [LOG.activeFd, hw]
      · simp
      · simp [hd]
      · intro w hw1; simp [hw] at hw1
      · intro p i hp; exact hb p i hp
      · simp [FS.sizeAt, FS.statSize, hd]
      · simp [LOG.pending, hw]
      · simp [FS.renames, List.filterMap_append]
      · simp [hd]
      · simp [LOG.activeFd, hw]
      · simp
      · simp [FS.contentAt, hd]
      · intro h; simp at h
      · intro j h; exact Option.some.inj h
      · intro p _; rfl
      · intro i _; rfl

/-! ## Writing a record on an open logger -/

theorem dashData : "-data.log".toList = ['-', 'd', 'a', 't', 'a', '.', 'l', 'o', 'g'] := by decide
theorem slashData : "/data.log".toList = ['/', 'd', 'a', 't', 'a', '.', 'l', 'o', 'g'] := by decide
theorem plainData : "data.log".toList = ['d', 'a', 't', 'a', '.', 'l', 'o', 'g'] := by decide

theorem rotatedFile_ne (log : LOG) (hp : log.PathSet) (d ts : Str) :
    rotatedFile d ts ≠ log.logFilePath := by
  intro h
  rcases hp with hp | ⟨d1, hp⟩
  · have := congrArg List.length h
    rw [hp, plainData] at this
    simp [rotatedFile, dashData] at this
    omega
  · rw [hp] at h
    have := congrArg (fun l => l.reverse.take 9) h
    simp [rotatedFile, dashData, slashData] at this

theorem write_ok (log : LOG) (fs : FS) (msg : Str) (ho : log.Opened fs) :
    ∃ log1 fs1 fd, log.write fs msg none = (msg.length, log1, fs1) ∧
      log.activeFd = some fd ∧ log1.Opened fs1 ∧ log1.rotation = log.rotation ∧
      log1.logFilePath = log.logFilePath ∧ log1.logLevel = log.logLevel ∧
      log1.logType = log.logType ∧ log1.activeFd = log.activeFd ∧ log1.file = log.file ∧
      (log1.writer = none ↔ log.writer = none) ∧
      FS.SameBut fs fs1 (fs.fdIno fd) ∧
      fs1.data (fs.fdIno fd) ++ log1.pending = fs.data (fs.fdIno fd) ++ log.pending ++ msg ∧
      ∃ pre, fs1.calls = fs.calls ++ pre ++
        [if log.writer = none then .fileWrite log.file msg msg.length
          else .writeString msg msg.length] := by
  obtain ⟨⟨fd, hfd, hopen, hdir⟩, hw⟩ := ho
  cases hwr : log.writer with
  | none =>
    have hfile : log.file = some fd := by simpa [LOG.activeFd, hwr] using hfd
    obtain ⟨fs1, h1, h2, h3, h4⟩ := fileWrite_ok fs fd msg hopen
    refine ⟨log, fs1, fd, ?_, hfd, ⟨⟨fd, hfd, ?_, ?_⟩, hw⟩, rfl, rfl, rfl, rfl, rfl, rfl, by simp [hwr],
      h2, ?_, [], ?_⟩
    · simp only [LOG.write, hwr, hfile, h1]
    · rw [h2.2.2.2.1]; exact hopen
    · rw [h2.1, h2.2.2.1]; exact hdir
    · simp [LOG.pending, hwr, h3]
    · simp [h4, hfile]
  | some w =>
    have hwfd : w.fd = fd := by simpa [LOG.activeFd, hwr] using hfd
    obtain ⟨herr, hlen⟩ := hw w hwr
    subst hwfd
    obtain ⟨w1, fs1, h1, herr1, hfd1, hlen1, hsame, hdata, pre, hcalls, -⟩ :=
      WriteString_ok w fs msg herr hopen hlen
    refine ⟨{ log with writer := some w1 }, fs1, w.fd, ?_, hfd, ⟨⟨w.fd, ?_, ?_, ?_⟩, ?_⟩, rfl, rfl,
      rfl, rfl, ?_, rfl, ?_, hsame, ?_, pre, ?_⟩
    · simp only [LOG.write, hwr, h1]
    · simp [LOG.activeFd, hfd1]
    · rw [hsame.2.2.2.1]; exact hopen
    · rw [hsame.1, hsame.2.2.1]; exact hdir
    · intro w2 hw2
      simp at hw2
      subst hw2
      exact ⟨herr1, hlen1⟩
    · simp [LOG.activeFd, hwr, hfd1]
    · simp
    · simpa [LOG.pending, hwr] using hdata
    · simp [hcalls]

/-! ## Rotation on an open logger -/

theorem renames_record (fs : FS) (c : IOCall) (l : List IOCall) (h : l = fs.calls ++ [c]) :
    ({ fs with calls := l } : FS).renames = fs.renames ++
      (match c with
        | .osRename o n true => [(o, n)]
        | _ => []) := by
  subst h
  simp only [FS.renames, List.filterMap_append]
  congr 1
  cases c with
  | osRename o n ok => cases ok <;> simp [List.filterMap]
  | _ => simp [List.filterMap]

theorem fileClose_facts (fs : FS) (file : Option Nat) :
    (fs.fileClose file).dir = fs.dir ∧ (fs.fileClose file).data = fs.data ∧
    (fs.fileClose file).nextIno = fs.nextIno ∧ (fs.fileClose file).nextFd = fs.nextFd ∧
    (fs.fileClose file).fdIno = fs.fdIno ∧
    (fs.fileClose file).renames = fs.renames ∧
    (fs.fileClose file).calls = fs.calls ++ [.fileClose file] := by
  unfold FS.fileClose
  cases file with
  | none => simp [FS.record, FS.renames, List.filterMap_append]
  | some fd => simp [FS.renames, List.filterMap_append]

theorem osRename_ok (fs : FS) (o n : Str) (ino : Nat) (h : fs.dir o = some ino) :
    ∃ fs1, fs.osRename o n false = (true, fs1) ∧
      fs1.dir = Function.update (Function.update fs.dir o none) n (some ino) ∧
      fs1.data = fs.data ∧ fs1.nextIno = fs.nextIno ∧ fs1.nextFd = fs.nextFd ∧
      fs1.openFds = fs.openFds ∧
      fs1.renames = fs.renames ++ [(o, n)] ∧
      fs1.calls = fs.calls ++ [.osRename o n true] := by
  refine ⟨{ fs with
      dir := Function.update (Function.update fs.dir o none) n (some ino)
      calls := fs.calls ++ [.osRename o n true] }, ?_, rfl, rfl, rfl, rfl, rfl, ?_, rfl⟩
  · simp only [FS.osRename, h, Bool.false_eq_true, if_false]
  · simp [FS.renames, List.filterMap_append]

/-- The flush that opens a rotation, on an open logger, without fault. -/
theorem flushWriter_ok (log : LOG) (fs : FS) (ino : Nat) (ho : log.Opened fs)
    (hino : fs.dir log.logFilePath = some ino) :
    ∃ log1 fs1, log.flushWriter fs none = (log1, fs1) ∧
      log1.rotation = log.rotation ∧ log1.file = log.file ∧
      log1.logFilePath = log.logFilePath ∧ log1.logLevel = log.logLevel ∧
      log1.logType = log.logType ∧
      FS.SameBut fs fs1 ino ∧ fs1.data ino = fs.data ino ++ log.pending ∧
      ∃ post, fs1.calls = fs.calls ++ post := by
  obtain ⟨⟨fd, hfd, hopen, hdir⟩, hw⟩ := ho
  have hfi : fs.fdIno fd = ino := by
    rw [hino] at hdir
    exact (Option.some.inj hdir).symm
  cases hwr : log.writer with
  | none =>
    refine ⟨log, fs, ?_, rfl, rfl, rfl, rfl, rfl, FS.SameBut.sameBut_refl _ _, ?_, [], by simp⟩
    · simp [LOG.flushWriter, hwr]
    · simp [LOG.pending, hwr]
  | some w =>
    have hwfd : w.fd = fd := by simpa [LOG.activeFd, hwr] using hfd
    obtain ⟨herr, -⟩ := hw w hwr
    subst hwfd
    obtain ⟨fs1, h1, h2, h3, post, h4, -⟩ := Flush_ok w fs herr hopen
    rw [hfi] at h2 h3
    refine ⟨{ log with writer := some { w with buf := [] } }, fs1, ?_, rfl, rfl, rfl, rfl, rfl,
      h2, ?_, post, h4⟩
    · simp only [LOG.flushWriter, hwr, h1]
    · simp [LOG.pending, hwr, h3]

theorem rotate_ok (log : LOG) (fs : FS) (env : Env) (ts : Str) (r : Rotation) (ino : Nat)
    (ho : log.Opened fs) (hb : fs.Bounded) (hp : log.PathSet) (hrot : log.rotation = some r)
    (hino : fs.dir log.logFilePath = some ino)
    (hff : env.flushFault = none) (hrn : env.renameFails = false)
    (hro : env.reopen.openFails = false) (hrs : env.reopen.statFails = false) :
    ∃ log1 fs1, log.rotate fs env ts = .done log1 fs1 ∧
      log1.Opened fs1 ∧ fs1.Bounded ∧
      log1.rotation = some { r with
        currentFileSize := 0
        currentFileDate := getCurrentDateString env.reopen.now } ∧
      log1.logFilePath = log.logFilePath ∧ log1.logLevel = log.logLevel ∧
      log1.logType = log.logType ∧ log1.pending = [] ∧
      fs1.renames = fs.renames ++ [(log.logFilePath, rotatedFile r.rotatedLogDir ts)] ∧
      fs1.dir (rotatedFile r.rotatedLogDir ts) = some ino ∧
      fs1.data ino = fs.data ino ++ log.pending ∧
      fs1.dir log.logFilePath = some fs.nextIno ∧
      fs1.data fs.nextIno = [] ∧
      log1.activeFd = some fs.nextFd ∧ fs1.fdIno fs.nextFd = fs.nextIno ∧
      (∀ p, p ≠ log.logFilePath → p ≠ rotatedFile r.rotatedLogDir ts → fs1.dir p = fs.dir p) ∧
      (∀ i, i < fs.nextIno → i ≠ ino → fs1.data i = fs.data i) ∧
      ∃ post, fs1.calls = fs.calls ++ post := by
  obtain ⟨logA, fsA, hA, hArot, hAfile, hApath, hAlvl, hAtype, hAsame, hAdata, postA, hAcalls⟩ :=
    flushWriter_ok log fs ino ho hino
  have hne : rotatedFile r.rotatedLogDir ts ≠ log.logFilePath := rotatedFile_ne log hp _ _
  have hilt : ino < fs.nextIno := hb _ _ hino
  obtain ⟨hBdir, hBdata, hBino, hBfd, -, hBren, hBcalls⟩ := fileClose_facts fsA logA.file
  have hdirB : (fsA.fileClose logA.file).dir log.logFilePath = some ino := by
    rw [hBdir, hAsame.1, hino]
  obtain ⟨fsC, hC, hCdir, hCdata, hCino, hCfd, -, hCren, hCcalls⟩ :=
    osRename_ok (fsA.fileClose logA.file) log.logFilePath (rotatedFile r.rotatedLogDir ts) ino
      hdirB
  rw [hBdir, hAsame.1] at hCdir
  rw [hBdata] at hCdata
  rw [hBino, hAsame.2.1] at hCino
  rw [hBfd, hAsame.2.2.2.2.1] at hCfd
  rw [hBren, hAsame.2.2.2.2.2.1] at hCren
  rw [hBcalls, hAcalls] at hCcalls
  have hCb : fsC.Bounded := by
    intro p i hpi
    rw [hCdir] at hpi
    rw [hCino]
    simp only [Function.update_apply] at hpi
    split at hpi
    · simp at hpi; omega
    · split at hpi
      · simp at hpi
      · exact hb p i hpi
  have hCnone : fsC.dir log.logFilePath = none := by
    rw [hCdir, Function.update_noteq (Ne.symm hne), Function.update_same]
  obtain ⟨log1, fs1, ino1, hO, hOpened, hBounded, hOrot, hOpath, hOlvl, hOtype, hOpend, hOren,
      hOdir, hOact, hOfd, hOdata, hOnew, -, hOframe, hOold, hOcalls, -⟩ :=
    openFile_ok { logA with writer := none } fsC env.reopen r rfl (by simp [hArot, hrot]) hro hrs
      hCb
  simp only [hApath] at hO hOdir hOnew hOframe hOcalls hOdata hOrot hOpath
  have hino1 : ino1 = fs.nextIno := by rw [hOnew hCnone, hCino]
  subst hino1
  refine ⟨log1, fs1, ?_, hOpened, hBounded, ?_, hOpath, ?_, ?_, hOpend, ?_, ?_, ?_, hOdir, ?_, ?_,
    ?_, ?_, ?_, ?_⟩
  · rw [hArot, hrot] at hO
    simp only [LOG.rotate, hff, hA, hArot, hrot, hrn, hApath, hC, hO]
  · rw [hOrot]
    simp [FS.sizeAt, hCnone]
  · rw [hOlvl, hAlvl]
  · rw [hOtype, hAtype]
  · rw [hOren, hCren]
  · rw [hOframe _ hne, hCdir, Function.update_same]
  · rw [hOold ino (by rw [hCino]; exact hilt), hCdata, hAdata]
  · rw [hOdata]; simp [FS.contentAt, hCnone]
  · rw [hOact, hCfd]
  · rw [← hCfd]; exact hOfd
  · intro p hp1 hp2
    rw [hOframe p hp1, hCdir, Function.update_noteq hp2, Function.update_noteq hp1]
  · intro i hi hne2
    rw [hOold i (by rw [hCino]; exact hi), hCdata]
    exact hAsame.2.2.2.2.2.2 i hne2
  · refine ⟨postA ++ [.fileClose logA.file,
      .osRename log.logFilePath (rotatedFile r.rotatedLogDir ts) true,
      .osOpenFile log.logFilePath (some fsC.nextFd)], ?_⟩
    rw [hOcalls, hCcalls]
    simp

/-! ## The lazy open and the rotation checks -/

theorem LOG.Opened.congr {log log1 : LOG} {fs : FS} (ho : log.Opened fs)
    (hw : log1.writer = log.writer) (hf : log1.file = log.file)
    (hp : log1.logFilePath = log.logFilePath) : log1.Opened fs := by
  unfold LOG.Opened LOG.activeFd at *
  rw [hw, hf, hp]
  exact ho

theorem LOG.Opened.not_unopened {log : LOG} {fs : FS} (ho : log.Opened fs) :
    ¬ (log.file = none ∧ log.writer = none) := by
  obtain ⟨⟨fd, hfd, -, -⟩, -⟩ := ho
  rintro ⟨h1, h2⟩
  simp [LOG.activeFd, h1, h2] at hfd

theorem ensureOpen_ok (log : LOG) (fs : FS) (e : OpenEnv) (r : Rotation)
    (hstate : log.Opened fs ∨ log.Unopened) (hb : fs.Bounded) (hrot : log.rotation = some r)
    (ho : e.openFails = false) (hs : e.statFails = false) :
    ∃ log1 fs1 r1, log.ensureOpen fs e = .done log1 fs1 ∧ log1.Opened fs1 ∧ fs1.Bounded ∧
      log1.rotation = some r1 ∧ r1.rotationType = r.rotationType ∧
      r1.rotatedLogDir = r.rotatedLogDir ∧ r1.rotationSize = r.rotationSize ∧
      r1.currentFileSize = log.sizeNow fs ∧ r1.currentFileDate = log.dateNow e ∧
      (log.Opened fs → log1 = log ∧ fs1 = fs) ∧
      (log.Unopened → log.openFile fs e = .done log1 fs1) ∧
      log1.logFilePath = log.logFilePath ∧ log1.logLevel = log.logLevel ∧
      log1.logType = log.logType ∧ fs1.renames = fs.renames ∧
      (∀ p, p ≠ log.logFilePath → fs1.dir p = fs.dir p) ∧
      fs1.contentAt log.logFilePath = fs.contentAt log.logFilePath ∧
      log1.pending = log.pending ∧
      (∃ post, fs1.calls = fs.calls ++ post) := by
  rcases hstate with hop | hun
  · have hn := hop.not_unopened
    refine ⟨log, fs, r, ?_, hop, hb, hrot, rfl, rfl, rfl, ?_, ?_, fun _ => ⟨rfl, rfl⟩, ?_, rfl, rfl,
      rfl, rfl, fun _ _ => rfl, rfl, rfl, [], by simp⟩
    · simp only [LOG.ensureOpen, hn, if_false]
    · simp only [LOG.sizeNow, hn, if_false, hrot]
    · simp only [LOG.dateNow, hn, if_false, hrot]
    · intro h; exact absurd h hn
  · obtain ⟨log1, fs1, ino, hO, hOpened, hBounded, hOrot, hOpath, hOlvl, hOtype, hOpend, hOren,
      hOdir, -, -, hOdata, -, -, hOframe, -, hOcalls, -⟩ :=
      openFile_ok log fs e r hun.2 hrot ho hs hb
    have hu : log.file = none ∧ log.writer = none := hun
    refine ⟨log1, fs1, _, ?_, hOpened, hBounded, hOrot, rfl, rfl, rfl, ?_, ?_, ?_, fun _ => hO,
      hOpath, hOlvl, hOtype, hOren, hOframe, ?_, ?_, _, hOcalls⟩
    · simp only [LOG.ensureOpen, hu, and_self, if_true, hO]
    · simp only [LOG.sizeNow, hu, and_self, if_true]
    · simp only [LOG.dateNow, hu, and_self, if_true]
    · intro h; exact absurd hu h.not_unopened
    · rw [← hOdata]
      simp only [FS.contentAt, hOdir]
    · rw [hOpend]
      simp only [LOG.pending, hun.2]

theorem Log_of_open (log : LOG) (fs : FS) (env : Env) (level : Int) (data : Str)
    (log1 : LOG) (fs1 : FS) (hopen : log.ensureOpen fs env.lazyOpen = .done log1 fs1)
    (h0 : 0 ≤ level) (h4 : level ≤ 4) (hl : log1.logLevel ≤ level) :
    log.Log fs env level data =
      (log1.write fs1 (Call.record ⟨env, level, data⟩) env.writeFault).2.1.afterWrite
        (log1.write fs1 (Call.record ⟨env, level, data⟩) env.writeFault).2.2 env
        (getLogTime env.now)
        (log1.write fs1 (Call.record ⟨env, level, data⟩) env.writeFault).1 := by
  obtain ⟨nm, hnm, -⟩ := severityName_some level h0 h4
  have hf : ¬ (level < 0 ∨ level > 4 ∨ level < log1.logLevel) := by omega
  simp only [LOG.Log, hnm, hopen, hf, if_false, Call.record, Option.getD_some]

theorem type_ne : SizeBasedRotation ≠ TimeBasedRotation := by decide

theorem afterWrite_size_keep (log : LOG) (fs : FS) (env : Env) (ts : Str) (n : Nat)
    (r : Rotation) (hrot : log.rotation = some r) (ht : r.rotationType = SizeBasedRotation)
    (hlt : r.currentFileSize + (n : Int) < r.rotationSize) :
    log.afterWrite fs env ts n =
      (.success,
        { log with rotation := some { r with currentFileSize := r.currentFileSize + (n : Int) } },
        fs) := by
  have h1 : ¬ (r.currentFileSize + (n : Int) ≥ r.rotationSize) := by omega
  have h2 : ¬ (SizeBasedRotation = TimeBasedRotation) := type_ne
  simp only [LOG.afterWrite, hrot, ht, h1, and_false, if_false, h2, false_and]

theorem afterWrite_time_keep (log : LOG) (fs : FS) (env : Env) (ts : Str) (n : Nat)
    (r : Rotation) (hrot : log.rotation = some r) (ht : r.rotationType = TimeBasedRotation)
    (hd : r.currentFileDate = getCurrentDateString env.checkNow) :
    log.afterWrite fs env ts n =
      (.success,
        { log with rotation := some { r with currentFileSize := r.currentFileSize + (n : Int) } },
        fs) := by
  have h2 : ¬ (TimeBasedRotation = SizeBasedRotation) := fun h => type_ne h.symm
  simp only [LOG.afterWrite, hrot, ht, h2, false_and, if_false, hd, ne_eq, not_true_eq_false,
    and_false]

theorem afterWrite_size_rotate (log : LOG) (fs : FS) (env : Env) (ts : Str) (n : Nat)
    (r : Rotation) (hrot : log.rotation = some r) (ht : r.rotationType = SizeBasedRotation)
    (hge : r.rotationSize ≤ r.currentFileSize + (n : Int)) (log1 : LOG) (fs1 : FS)
    (hr : LOG.rotate
      { log with rotation := some { r with currentFileSize := r.currentFileSize + (n : Int) } }
      fs env ts = .done log1 fs1)
    (r1 : Rotation) (hrot1 : log1.rotation = some r1) (ht1 : r1.rotationType = r.rotationType) :
    log.afterWrite fs env ts n = (.success, log1, fs1) := by
  have h2 : ¬ (SizeBasedRotation = TimeBasedRotation) := type_ne
  have ht2 : r1.rotationType = SizeBasedRotation := ht1.trans ht
  simp only [ht] at hr
  simp only [LOG.afterWrite, hrot, ht, ge_iff_le, hge, and_self, if_true, LOG.sizeBasedRotation, hr,
    hrot1, ht2, h2, false_and, if_false]

theorem afterWrite_time_rotate (log : LOG) (fs : FS) (env : Env) (ts : Str) (n : Nat)
    (r : Rotation) (hrot : log.rotation = some r) (ht : r.rotationType = TimeBasedRotation)
    (hd : r.currentFileDate ≠ getCurrentDateString env.checkNow) (log1 : LOG) (fs1 : FS)
    (hr : LOG.rotate
      { log with rotation := some { r with currentFileSize := r.currentFileSize + (n : Int) } }
      fs env ts = .done log1 fs1)
    (r1 : Rotation) (hrot1 : log1.rotation = some r1) :
    log.afterWrite fs env ts n =
      (.success,
        { log1 with
          rotation := some { r1 with
            currentFileSize := 0
            currentFileDate := getCurrentDateString env.setNow } },
        fs1) := by
  have h2 : ¬ (TimeBasedRotation = SizeBasedRotation) := fun h => type_ne h.symm
  simp only [ht] at hr
  simp only [LOG.afterWrite, hrot, ht, h2, false_and, if_false, ne_eq, hd, not_false_eq_true,
    and_self, if_true, LOG.timeBasedRotation, hr, hrot1]

/-! ## One call without fault -/

/-- What an unfiltered fault-free call leaves behind when it rotates or not, in terms of
the state after its write; shared by both rotation kinds. -/
theorem Log_prepare (log : LOG) (fs : FS) (env : Env) (level : Int) (data : Str)
    (r : Rotation) (hstate : log.Opened fs ∨ log.Unopened) (hb : fs.Bounded)
    (hp : log.PathSet) (hrot : log.rotation = some r) (hcalm : env.Calm)
    (h0 : 0 ≤ level) (h4 : level ≤ 4) (hl : log.logLevel ≤ level) :
    ∃ (log2 : LOG) (fs2 : FS) (r1 : Rotation) (ino : Nat),
      log.Log fs env level data =
        log2.afterWrite fs2 env (getLogTime env.now) (Call.record ⟨env, level, data⟩).length ∧
      log2.Opened fs2 ∧ fs2.Bounded ∧ log2.PathSet ∧ log2.rotation = some r1 ∧
      r1.rotationType = r.rotationType ∧ r1.rotatedLogDir = r.rotatedLogDir ∧
      r1.rotationSize = r.rotationSize ∧ r1.currentFileSize = log.sizeNow fs ∧
      r1.currentFileDate = log.dateNow env.lazyOpen ∧
      log2.logFilePath = log.logFilePath ∧ log2.logLevel = log.logLevel ∧
      fs2.renames = fs.renames ∧ fs2.dir log.logFilePath = some ino ∧
      fs2.data ino ++ log2.pending =
        fs.contentAt log.logFilePath ++ log.pending ++ Call.record ⟨env, level, data⟩ ∧
      (∀ p, p ≠ log.logFilePath → fs2.dir p = fs.dir p) := by
  obtain ⟨c1, c2, c3, -, -, -, -⟩ := hcalm
  obtain ⟨log1, fs1, r1, hE, hO1, hB1, hrot1, ht1, hdir1, hsz1, hcur1, hdate1, -, -, hpath1, hlvl1,
      -, hren1, hframe1, hcont1, hpend1, -⟩ :=
    ensureOpen_ok log fs env.lazyOpen r hstate hb hrot c1 c2
  obtain ⟨log2, fs2, fd, hW, hfd, hO2, hrot2, hpath2, hlvl2, -, -, -, -, hsame, hdata, -⟩ :=
    write_ok log1 fs1 (Call.record ⟨env, level, data⟩) hO1
  have hino : fs1.dir log.logFilePath = some (fs1.fdIno fd) := by
    obtain ⟨⟨fd1, hfd1, -, hd1⟩, -⟩ := hO1
    rw [hfd] at hfd1
    cases hfd1
    rw [← hpath1]; exact hd1
  have hL := Log_of_open log fs env level data log1 fs1 hE h0 h4 (by rw [hlvl1]; exact hl)
  rw [c3, hW] at hL
  simp only at hL
  refine ⟨log2, fs2, r1, fs1.fdIno fd, hL, hO2, hsame.sameBut_bounded hB1, ?_, by rw [hrot2, hrot1], ht1,
    hdir1, hsz1, hcur1, hdate1, by rw [hpath2, hpath1], by rw [hlvl2, hlvl1], ?_, ?_, ?_, ?_⟩
  · unfold LOG.PathSet; rw [hpath2, hpath1]; exact hp
  · rw [hsame.2.2.2.2.2.1, hren1]
  · rw [hsame.1]; exact hino
  · rw [hdata, ← hcont1, ← hpend1]
    simp only [FS.contentAt, hino]
  · intro p hp1
    rw [hsame.1]; exact hframe1 p hp1

/-- What the rotation inside `afterWrite` leaves behind on an open logger without fault. -/
theorem rotate_facts (log : LOG) (fs : FS) (env : Env) (ts : Str) (r : Rotation) (ino : Nat)
    (ho : log.Opened fs) (hb : fs.Bounded) (hp : log.PathSet) (hrot : log.rotation = some r)
    (hino : fs.dir log.logFilePath = some ino) (hcalm : env.Calm) :
    ∃ log1 fs1, log.rotate fs env ts = .done log1 fs1 ∧
      log1.Opened fs1 ∧ fs1.Bounded ∧ log1.PathSet ∧
      log1.rotation = some { r with
        currentFileSize := 0
        currentFileDate := getCurrentDateString env.reopen.now } ∧
      log1.logFilePath = log.logFilePath ∧ log1.logLevel = log.logLevel ∧
      log1.pending = [] ∧
      fs1.renames = fs.renames ++ [(log.logFilePath, rotatedFile r.rotatedLogDir ts)] ∧
      fs1.contentAt (rotatedFile r.rotatedLogDir ts) = fs.data ino ++ log.pending ∧
      fs1.contentAt log.logFilePath = [] ∧
      fs1.dir (rotatedFile r.rotatedLogDir ts) ≠ fs1.dir log.logFilePath ∧
      (∀ p, p ≠ log.logFilePath → p ≠ rotatedFile r.rotatedLogDir ts → fs1.dir p = fs.dir p) := by
  obtain ⟨-, -, -, c4, c5, c6, c7⟩ := hcalm
  obtain ⟨log1, fs1, hR, hO, hB, hrot1, hpath, hlvl, -, hpend, hren, hdirR, hdataR, hdirN, hdataN, -,
      -, hframe, -, -⟩ := rotate_ok log fs env ts r ino ho hb hp hrot hino c4 c5 c6 c7
  refine ⟨log1, fs1, hR, hO, hB, ?_, hrot1, hpath, hlvl, hpend, hren, ?_, ?_, ?_, hframe⟩
  · unfold LOG.PathSet; rw [hpath]; exact hp
  · simp only [FS.contentAt, hdirR, hdataR]
  · simp only [FS.contentAt, hdirN, hdataN]
  · rw [hdirR, hdirN]
    have := hb _ _ hino
    intro h
    have := Option.some.inj h
    omega

/-! ## One call under each rotation kind -/

theorem Rotation.eq_with (r1 r : Rotation) (h1 : r1.rotationType = r.rotationType)
    (h2 : r1.rotatedLogDir = r.rotatedLogDir) (h3 : r1.rotationSize = r.rotationSize) :
    r1 = { r with currentFileSize := r1.currentFileSize, currentFileDate := r1.currentFileDate } := by
  cases r1; cases r; simp_all

/-- C4. Time-based rotation, without file-system fault, for an unfiltered call with a valid
level.  `dateNow` is the day captured when the file was opened (by this very call when the
file was not open yet).  If the day read after the write differs from it, the record has been
written to the old file, that file with the record at its end has been renamed to
`rotatedLogDir/<timestamp of this call>-data.log`, a different and empty file is active
under the old path with nothing pending, `currentFileSize` is `0` and `currentFileDate` the
current day.  If the day is the same nothing is renamed and the record is in the active file
or pending in its writer.  In both cases `Log` returns nil and the logger stays open. -/
theorem Log_timeBased (log : LOG) (fs : FS) (env : Env) (level : Int) (data : Str)
    (r : Rotation) (hstate : log.Opened fs ∨ log.Unopened) (hb : fs.Bounded)
    (hp : log.PathSet) (hrot : log.rotation = some r)
    (ht : r.rotationType = TimeBasedRotation) (hcalm : env.Calm)
    (h0 : 0 ≤ level) (h4 : level ≤ 4) (hl : log.logLevel ≤ level) :
    (log.Log fs env level data).1 = .success ∧
    (log.Log fs env level data).2.1.Opened (log.Log fs env level data).2.2 ∧
    (log.dateNow env.lazyOpen ≠ getCurrentDateString env.checkNow →
      (log.Log fs env level data).2.2.renames = fs.renames ++
        [(log.logFilePath, rotatedFile r.rotatedLogDir (getLogTime env.now))] ∧
      (log.Log fs env level data).2.2.contentAt
          (rotatedFile r.rotatedLogDir (getLogTime env.now)) =
        fs.contentAt log.logFilePath ++ log.pending ++ Call.record ⟨env, level, data⟩ ∧
      (log.Log fs env level data).2.2.contentAt log.logFilePath = [] ∧
      (log.Log fs env level data).2.2.dir (rotatedFile r.rotatedLogDir (getLogTime env.now)) ≠
        (log.Log fs env level data).2.2.dir log.logFilePath ∧
      (log.Log fs env level data).2.1.pending = [] ∧
      (log.Log fs env level data).2.1.rotation = some { r with
        currentFileSize := 0
        currentFileDate := getCurrentDateString env.setNow }) ∧
    (log.dateNow env.lazyOpen = getCurrentDateString env.checkNow →
      (log.Log fs env level data).2.2.renames = fs.renames ∧
      (log.Log fs env level data).2.2.contentAt log.logFilePath ++
          (log.Log fs env level data).2.1.pending =
        fs.contentAt log.logFilePath ++ log.pending ++ Call.record ⟨env, level, data⟩ ∧
      (log.Log fs env level data).2.1.rotation = some { r with
        currentFileSize := log.sizeNow fs + ((Call.record ⟨env, level, data⟩).length : Int)
        currentFileDate := log.dateNow env.lazyOpen }) := by
  obtain ⟨log2, fs2, r1, ino, hL, hO2, hB2, hP2, hrot2, ht2, hdir2, hsz2, hcur2, hdate2, hpath2,
    hlvl2, hren2, hino2, hdata2, -⟩ := Log_prepare log fs env level data r hstate hb hp hrot hcalm h0 h4 hl
  have ht2' : r1.rotationType = TimeBasedRotation := ht2.trans ht
  have hr1 := Rotation.eq_with r1 r ht2 hdir2 hsz2
  rw [hL]
  by_cases hd : log.dateNow env.lazyOpen = getCurrentDateString env.checkNow
  · rw [afterWrite_time_keep log2 fs2 env _ _ r1 hrot2 ht2' (hdate2.trans hd)]
    refine ⟨rfl, hO2.congr rfl rfl rfl, fun h => absurd hd h, fun _ => ⟨hren2, ?_, ?_⟩⟩
    · simp only [FS.contentAt, hino2]
      exact hdata2
    · simp only [hcur2, hdate2]
      rw [hr1]
  · have hO2' : LOG.Opened { log2 with rotation := some { r1 with
        currentFileSize := r1.currentFileSize + ((Call.record ⟨env, level, data⟩).length : Int) } }
        fs2 := hO2.congr rfl rfl rfl
    have hP2' : LOG.PathSet { log2 with rotation := some { r1 with
        currentFileSize := r1.currentFileSize + ((Call.record ⟨env, level, data⟩).length : Int) } } :=
      hP2
    obtain ⟨log3, fs3, hR, hO3, hB3, hP3, hrot3, hpath3, hlvl3, hpend3, hren3, hcontR, hcontN, hne,
        -⟩ :=
      rotate_facts _ fs2 env (getLogTime env.now) _ ino hO2' hB2 hP2' rfl
        (by simp only [hpath2]; exact hino2) hcalm
    rw [afterWrite_time_rotate log2 fs2 env _ _ r1 hrot2 ht2' (by rw [hdate2]; exact hd) log3 fs3 hR
      _ hrot3]
    simp only [hpath2, hdir2, hren2] at hren3 hcontR hcontN hne
    refine ⟨rfl, hO3.congr rfl rfl rfl, fun _ => ⟨hren3, ?_, hcontN, hne, ?_, ?_⟩,
      fun h => absurd h hd⟩
    · rw [hcontR]
      exact hdata2
    · simpa [LOG.pending] using hpend3
    · simp only [ht2, hdir2, hsz2]

/-- One unfiltered fault-free call on a size-rotated logger. -/
theorem Log_sizeBased_step (log : LOG) (fs : FS) (env : Env) (level : Int) (data : Str)
    (r : Rotation) (hstate : log.Opened fs ∨ log.Unopened) (hb : fs.Bounded)
    (hp : log.PathSet) (hrot : log.rotation = some r)
    (ht : r.rotationType = SizeBasedRotation) (hcalm : env.Calm)
    (h0 : 0 ≤ level) (h4 : level ≤ 4) (hl : log.logLevel ≤ level) :
    (log.Log fs env level data).1 = .success ∧
    (log.Log fs env level data).2.1.Opened (log.Log fs env level data).2.2 ∧
    (log.Log fs env level data).2.2.Bounded ∧
    (log.Log fs env level data).2.1.PathSet ∧
    (log.Log fs env level data).2.1.logFilePath = log.logFilePath ∧
    (log.Log fs env level data).2.1.logLevel = log.logLevel ∧
    (log.sizeNow fs + ((Call.record ⟨env, level, data⟩).length : Int) < r.rotationSize →
      (log.Log fs env level data).2.2.renames = fs.renames ∧
      (log.Log fs env level data).2.2.contentAt log.logFilePath ++
          (log.Log fs env level data).2.1.pending =
        fs.contentAt log.logFilePath ++ log.pending ++ Call.record ⟨env, level, data⟩ ∧
      (log.Log fs env level data).2.1.rotation = some { r with
        currentFileSize := log.sizeNow fs + ((Call.record ⟨env, level, data⟩).length : Int)
        currentFileDate := log.dateNow env.lazyOpen }) ∧
    (r.rotationSize ≤ log.sizeNow fs + ((Call.record ⟨env, level, data⟩).length : Int) →
      (log.Log fs env level data).2.2.renames = fs.renames ++
        [(log.logFilePath, rotatedFile r.rotatedLogDir (getLogTime env.now))] ∧
      (log.Log fs env level data).2.2.contentAt
          (rotatedFile r.rotatedLogDir (getLogTime env.now)) =
        fs.contentAt log.logFilePath ++ log.pending ++ Call.record ⟨env, level, data⟩ ∧
      (log.Log fs env level data).2.2.contentAt log.logFilePath = [] ∧
      (log.Log fs env level data).2.2.dir (rotatedFile r.rotatedLogDir (getLogTime env.now)) ≠
        (log.Log fs env level data).2.2.dir log.logFilePath ∧
      (log.Log fs env level data).2.1.pending = [] ∧
      (log.Log fs env level data).2.1.rotation = some { r with
        currentFileSize := 0
        currentFileDate := getCurrentDateString env.reopen.now }) := by
  obtain ⟨log2, fs2, r1, ino, hL, hO2, hB2, hP2, hrot2, ht2, hdir2, hsz2, hcur2, hdate2, hpath2,
    hlvl2, hren2, hino2, hdata2, -⟩ := Log_prepare log fs env level data r hstate hb hp hrot hcalm h0 h4 hl
  have ht2' : r1.rotationType = SizeBasedRotation := ht2.trans ht
  have hr1 := Rotation.eq_with r1 r ht2 hdir2 hsz2
  rw [hL]
  by_cases hlt : log.sizeNow fs + ((Call.record ⟨env, level, data⟩).length : Int) < r.rotationSize
  · rw [afterWrite_size_keep log2 fs2 env _ _ r1 hrot2 ht2' (by rw [hcur2, hsz2]; exact hlt)]
    refine ⟨rfl, hO2.congr rfl rfl rfl, hB2, hP2, hpath2, hlvl2, fun _ => ⟨hren2, ?_, ?_⟩,
      fun h => absurd hlt (by omega)⟩
    · simp only [FS.contentAt, hino2]
      exact hdata2
    · simp only [hcur2, hdate2]
      rw [hr1]
  · have hge : r1.rotationSize ≤
        r1.currentFileSize + ((Call.record ⟨env, level, data⟩).length : Int) := by
      rw [hcur2, hsz2]; omega
    have hO2' : LOG.Opened { log2 with rotation := some { r1 with
        currentFileSize := r1.currentFileSize + ((Call.record ⟨env, level, data⟩).length : Int) } }
        fs2 := hO2.congr rfl rfl rfl
    have hP2' : LOG.PathSet { log2 with rotation := some { r1 with
        currentFileSize := r1.currentFileSize + ((Call.record ⟨env, level, data⟩).length : Int) } } :=
      hP2
    obtain ⟨log3, fs3, hR, hO3, hB3, hP3, hrot3, hpath3, hlvl3, hpend3, hren3, hcontR, hcontN, hne,
        -⟩ :=
      rotate_facts _ fs2 env (getLogTime env.now) _ ino hO2' hB2 hP2' rfl
        (by simp only [hpath2]; exact hino2) hcalm
    rw [afterWrite_size_rotate log2 fs2 env _ _ r1 hrot2 ht2' hge log3 fs3 hR _ hrot3 rfl]
    simp only [hpath2, hdir2, hren2] at hren3 hcontR hcontN hne hpath3
    simp only [hlvl2] at hlvl3
    refine ⟨rfl, hO3, hB3, hP3, hpath3, hlvl3, fun h => absurd h hlt,
      fun _ => ⟨hren3, ?_, hcontN, hne, hpend3, ?_⟩⟩
    · rw [hcontR]
      exact hdata2
    · rw [hrot3]
      simp only [ht2, hdir2, hsz2]

/-! ## Runs of calls under size-based rotation -/

theorem logAll_cons_success (log : LOG) (fs : FS) (c : Call) (cs : List Call)
    (h : (log.Log fs c.env c.level c.data).1 = .success) :
    log.logAll fs (c :: cs) =
      LOG.logAll (log.Log fs c.env c.level c.data).2.1 (log.Log fs c.env c.level c.data).2.2 cs := by
  simp only [LOG.logAll]
  generalize log.Log fs c.env c.level c.data = res at h
  obtain ⟨o, l, f⟩ := res
  simp only at h
  subst h
  rfl

theorem sizeNow_opened (log : LOG) (fs : FS) (r : Rotation) (ho : log.Opened fs)
    (hrot : log.rotation = some r) : log.sizeNow fs = r.currentFileSize := by
  simp only [LOG.sizeNow, ho.not_unopened, if_false, hrot]

theorem totalLength_append (cs : List Call) (c : Call) :
    totalLength (cs ++ [c]) = totalLength cs + c.record.length := by
  induction cs with
  | nil => simp [totalLength]
  | cons a as ih => simp [totalLength, ih]; omega

theorem sizeBased_run (cs : List Call) : ∀ (c : Call) (log : LOG) (fs : FS) (r : Rotation),
    (log.Opened fs ∨ log.Unopened) → fs.Bounded → log.PathSet → log.rotation = some r →
    r.rotationType = SizeBasedRotation → r.rotationSize = defaultRotationSize →
    (∀ b ∈ cs ++ [c], b.env.Calm ∧ 0 ≤ b.level ∧ b.level ≤ 4 ∧ log.logLevel ≤ b.level) →
    log.sizeNow fs + (totalLength cs : Int) < defaultRotationSize →
    ∃ log1 fs1, log.logAll fs cs = some (log1, fs1) ∧ fs1.renames = fs.renames ∧
      (log1.Log fs1 c.env c.level c.data).1 = .success ∧
      (log1.Log fs1 c.env c.level c.data).2.1.Opened (log1.Log fs1 c.env c.level c.data).2.2 ∧
      (log1.Log fs1 c.env c.level c.data).2.1.logFilePath = log.logFilePath ∧
      (defaultRotationSize ≤ log.sizeNow fs + (totalLength (cs ++ [c]) : Int) →
        (log1.Log fs1 c.env c.level c.data).2.2.renames = fs.renames ++
          [(log.logFilePath, rotatedFile r.rotatedLogDir (getLogTime c.env.now))] ∧
        (log1.Log fs1 c.env c.level c.data).2.2.contentAt
            (rotatedFile r.rotatedLogDir (getLogTime c.env.now)) =
          fs.contentAt log.logFilePath ++ log.pending ++ allRecords (cs ++ [c]) ∧
        (log1.Log fs1 c.env c.level c.data).2.2.contentAt log.logFilePath = [] ∧
        (log1.Log fs1 c.env c.level c.data).2.2.dir
            (rotatedFile r.rotatedLogDir (getLogTime c.env.now)) ≠
          (log1.Log fs1 c.env c.level c.data).2.2.dir log.logFilePath ∧
        (log1.Log fs1 c.env c.level c.data).2.1.pending = [] ∧
        (log1.Log fs1 c.env c.level c.data).2.1.rotation = some { r with
          currentFileSize := 0
          currentFileDate := getCurrentDateString c.env.reopen.now }) ∧
      (log.sizeNow fs + (totalLength (cs ++ [c]) : Int) < defaultRotationSize →
        (log1.Log fs1 c.env c.level c.data).2.2.renames = fs.renames ∧
        (log1.Log fs1 c.env c.level c.data).2.2.contentAt log.logFilePath ++
            (log1.Log fs1 c.env c.level c.data).2.1.pending =
          fs.contentAt log.logFilePath ++ log.pending ++ allRecords (cs ++ [c]) ∧
        ∃ r2, (log1.Log fs1 c.env c.level c.data).2.1.rotation = some r2 ∧
          r2.currentFileSize = log.sizeNow fs + (totalLength (cs ++ [c]) : Int)) := by
  induction cs with
  | nil =>
    intro c log fs r hstate hb hp hrot ht hT hcs hbelow
    obtain ⟨hcalm, h0, h4, hl⟩ := hcs c (by simp)
    obtain ⟨s1, s2, s3, s4, s5, s6, s7, s8⟩ :=
      Log_sizeBased_step log fs c.env c.level c.data r hstate hb hp hrot ht hcalm h0 h4 hl
    have hrec : Call.record ⟨c.env, c.level, c.data⟩ = c.record := rfl
    rw [hrec, hT] at s7 s8
    refine ⟨log, fs, rfl, rfl, s1, s2, s5, ?_, ?_⟩
    · intro h
      simp only [List.nil_append, totalLength, Nat.add_zero, allRecords, List.append_nil] at h ⊢
      obtain ⟨a1, a2, a3, a4, a5, a6⟩ := s8 h
      exact ⟨a1, a2, a3, a4, a5, by rw [a6, hT]⟩
    · intro h
      simp only [List.nil_append, totalLength, Nat.add_zero, allRecords, List.append_nil] at h ⊢
      obtain ⟨a1, a2, a3⟩ := s7 h
      exact ⟨a1, a2, _, a3, rfl⟩
  | cons c0 cs ih =>
    intro c log fs r hstate hb hp hrot ht hT hcs hbelow
    obtain ⟨hcalm, h0, h4, hl⟩ := hcs c0 (by simp)
    obtain ⟨s1, s2, s3, s4, s5, s6, s7, -⟩ :=
      Log_sizeBased_step log fs c0.env c0.level c0.data r hstate hb hp hrot ht hcalm h0 h4 hl
    have hrec : Call.record ⟨c0.env, c0.level, c0.data⟩ = c0.record := rfl
    rw [hrec, hT] at s7
    have hlen : (totalLength (c0 :: cs) : Int) = (c0.record.length : Int) + (totalLength cs : Int) := by
      simp [totalLength]
    obtain ⟨a1, a2, a3⟩ := s7 (by rw [hlen] at hbelow; omega)
    have hsz := sizeNow_opened _ _ _ s2 a3
    simp only at hsz
    obtain ⟨log1, fs1, i1, i2, i3, j1, j2, i4, i5⟩ :=
      ih c _ _ _ (Or.inl s2) s3 s4 a3 ht rfl
        (by
          intro b hb1
          rw [s6]
          exact hcs b (by simp at hb1 ⊢; rcases hb1 with h | h; exact Or.inr (Or.inl h); exact Or.inr (Or.inr h)))
        (by rw [hsz]; rw [hlen] at hbelow; omega)
    rw [logAll_cons_success log fs c0 cs s1]
    have htot : log.sizeNow fs + (totalLength (c0 :: cs ++ [c]) : Int) =
        (log.Log fs c0.env c0.level c0.data).2.1.sizeNow (log.Log fs c0.env c0.level c0.data).2.2 +
          (totalLength (cs ++ [c]) : Int) := by
      rw [hsz]
      simp [totalLength]
      omega
    have hall : fs.contentAt log.logFilePath ++ log.pending ++ allRecords (c0 :: cs ++ [c]) =
        (log.Log fs c0.env c0.level c0.data).2.2.contentAt log.logFilePath ++
          (log.Log fs c0.env c0.level c0.data).2.1.pending ++ allRecords (cs ++ [c]) := by
      rw [a2]
      simp [allRecords]
    rw [s5, a1] at i4 i5
    rw [a1] at i2
    simp only at i4 i5
    refine ⟨log1, fs1, i1, i2, i3, j1, j2.trans s5, ?_, ?_⟩
    · intro h
      rw [htot] at h
      rw [hall]
      obtain ⟨b1, b2, b3, b4, b5, b6⟩ := i4 h
      exact ⟨b1, b2, b3, b4, b5, by rw [b6, hT]⟩
    · intro h
      rw [htot] at h
      rw [htot, hall]
      exact i5 h

/-! ## What every call does, whatever the environment: the file system -/

theorem FS.Step.step_refl (path rot : Str) (fs : FS) : FS.Step path rot fs fs :=
  ⟨⟨[], by simp, by simp⟩, fun _ _ _ => rfl⟩

theorem FS.Step.step_trans {path rot : Str} {a b c : FS} (h1 : FS.Step path rot a b)
    (h2 : FS.Step path rot b c) : FS.Step path rot a c := by
  obtain ⟨⟨p1, hp1, hr1⟩, hd1⟩ := h1
  obtain ⟨⟨p2, hp2, hr2⟩, hd2⟩ := h2
  refine ⟨⟨p1 ++ p2, by rw [hp2, hp1]; simp, fun o n ok h => ?_⟩,
    fun p h3 h4 => (hd2 p h3 h4).trans (hd1 p h3 h4)⟩
  rcases List.mem_append.1 h with h | h
  · exact hr1 o n ok h
  · exact hr2 o n ok h

theorem step_one (path rot : Str) (fs fs1 : FS) (c : IOCall)
    (hc : fs1.calls = fs.calls ++ [c])
    (hr : ∀ o n ok, c = IOCall.osRename o n ok → o = path ∧ n = rot)
    (hd : ∀ p, p ≠ path → p ≠ rot → fs1.dir p = fs.dir p) : FS.Step path rot fs fs1 :=
  ⟨⟨[c], hc, fun o n ok h => hr o n ok (List.mem_singleton.1 h).symm⟩, hd⟩

theorem osOpenFile_step (rot : Str) (fs : FS) (path : Str) (fails : Bool) :
    FS.Step path rot fs (fs.osOpenFile path fails).2 := by
  unfold FS.osOpenFile
  cases fails with
  | true => exact step_one _ _ _ _ _ rfl (by intro o n ok h; cases h) (fun _ _ _ => rfl)
  | false =>
    simp only [Bool.false_eq_true, if_false]
    cases fs.dir path with
    | some ino => exact step_one _ _ _ _ _ rfl (by intro o n ok h; cases h) (fun _ _ _ => rfl)
    | none =>
      refine step_one _ _ _ _ _ rfl (by intro o n ok h; cases h) (fun p h1 _ => ?_)
      simp [Function.update_noteq h1]

theorem fileWrite_step (path rot : Str) (fs : FS) (file : Option Nat) (b : Str)
    (fault : Option Nat) : FS.Step path rot fs (fs.fileWrite file b fault).2.2 := by
  unfold FS.fileWrite
  cases file with
  | none => exact step_one _ _ _ _ _ rfl (by intro o n ok h; cases h) (fun _ _ _ => rfl)
  | some fd =>
    simp only
    split
    · exact step_one _ _ _ _ _ rfl (by intro o n ok h; cases h) (fun _ _ _ => rfl)
    · exact step_one _ _ _ _ _ rfl (by intro o n ok h; cases h) (fun _ _ _ => rfl)

theorem fileWrite_calls (fs : FS) (file : Option Nat) (b : Str) (fault : Option Nat) :
    (fs.fileWrite file b fault).2.2.calls =
      fs.calls ++ [.fileWrite file b (fs.fileWrite file b fault).1] := by
  unfold FS.fileWrite
  cases file with
  | none => rfl
  | some fd =>
    simp only
    split
    · rfl
    · rfl

theorem fileWrite_le (fs : FS) (file : Option Nat) (b : Str) (fault : Option Nat) :
    (fs.fileWrite file b fault).1 ≤ b.length := by
  unfold FS.fileWrite
  cases file with
  | none => simp
  | some fd =>
    simp only
    split
    · cases fault with
      | none => simp
      | some k => simp
    · simp

theorem fileClose_step (path rot : Str) (fs : FS) (file : Option Nat) :
    FS.Step path rot fs (fs.fileClose file) := by
  unfold FS.fileClose
  cases file with
  | none => exact step_one _ _ _ _ _ rfl (by intro o n ok h; cases h) (fun _ _ _ => rfl)
  | some fd => exact step_one _ _ _ _ _ rfl (by intro o n ok h; cases h) (fun _ _ _ => rfl)

theorem osRename_step (fs : FS) (o n : Str) (fails : Bool) :
    FS.Step o n fs (fs.osRename o n fails).2 := by
  unfold FS.osRename
  cases fs.dir o with
  | none =>
    exact step_one _ _ _ _ _ rfl (by intro o1 n1 ok h; cases h; exact ⟨rfl, rfl⟩)
      (fun _ _ _ => rfl)
  | some ino =>
    cases fails with
    | true =>
      exact step_one _ _ _ _ _ rfl (by intro o1 n1 ok h; cases h; exact ⟨rfl, rfl⟩)
        (fun _ _ _ => rfl)
    | false =>
      refine step_one _ _ _ _ _ rfl (by intro o1 n1 ok h; cases h; exact ⟨rfl, rfl⟩)
        (fun p h1 h2 => ?_)
      simp [Function.update_noteq h1, Function.update_noteq h2]

theorem Flush_step (path rot : Str) (w : Writer) (fs : FS) (fault : Option Nat) :
    FS.Step path rot fs (w.Flush fs fault).2 := by
  unfold Writer.Flush
  split
  · exact FS.Step.step_refl _ _ _
  · split
    · exact FS.Step.step_refl _ _ _
    · have := fileWrite_step path rot fs (some w.fd) w.buf fault
      split <;> rename_i h <;> rw [h] at this <;> exact this

theorem Flush_no_writeString (w : Writer) (fs : FS) (fault : Option Nat) :
    ∃ post, (w.Flush fs fault).2.calls = fs.calls ++ post ∧
      ∀ c ∈ post, ∃ f b n, c = IOCall.fileWrite f b n := by
  unfold Writer.Flush
  split
  · exact ⟨[], by simp, by simp⟩
  · split
    · exact ⟨[], by simp, by simp⟩
    · have := fileWrite_calls fs (some w.fd) w.buf fault
      split <;> rename_i h <;> rw [h] at this <;>
        exact ⟨_, this, fun c hc => by simp at hc; exact ⟨_, _, _, hc⟩⟩

theorem writeLoop_general (fault : Option Nat) (fuel : Nat) :
    ∀ (w : Writer) (fs : FS) (s : Str) (nn : Nat),
      (Writer.writeLoop fault fuel w fs s nn).1 ≤ nn + s.length ∧
      (Writer.writeLoop fault fuel w fs s nn).2.2.dir = fs.dir ∧
      ∃ post, (Writer.writeLoop fault fuel w fs s nn).2.2.calls = fs.calls ++ post ∧
        ∀ c ∈ post, ∃ f b n, c = IOCall.fileWrite f b n := by
  induction fuel with
  | zero =>
    intro w fs s nn
    simp only [Writer.writeLoop]
    split
    · exact ⟨by simp, rfl, [], by simp, by simp⟩
    · exact ⟨by simp, rfl, [], by simp, by simp⟩
  | succ fuel ih =>
    intro w fs s nn
    simp only [Writer.writeLoop]
    split
    · rename_i hbig
      obtain ⟨h1, h2, post2, h3, h4⟩ := ih
        (Writer.Flush { w with buf := w.buf ++ s.take (min s.length (defaultBufSize - w.buf.length)) }
          fs fault).1
        (Writer.Flush { w with buf := w.buf ++ s.take (min s.length (defaultBufSize - w.buf.length)) }
          fs fault).2
        (s.drop (min s.length (defaultBufSize - w.buf.length)))
        (nn + min s.length (defaultBufSize - w.buf.length))
      obtain ⟨post1, h5, h6⟩ := Flush_no_writeString
        { w with buf := w.buf ++ s.take (min s.length (defaultBufSize - w.buf.length)) } fs fault
      have h7 := (Flush_step [] []
        { w with buf := w.buf ++ s.take (min s.length (defaultBufSize - w.buf.length)) } fs fault)
      refine ⟨?_, ?_, post1 ++ post2, ?_, ?_⟩
      · simp only [List.length_drop] at h1
        omega
      · rw [h2]
        unfold Writer.Flush
        split
        · rfl
        · split
          · rfl
          · have hd : (fs.fileWrite (some w.fd)
                (w.buf ++ s.take (min s.length (defaultBufSize - w.buf.length))) fault).2.2.dir =
                fs.dir := by
              unfold FS.fileWrite
              simp only
              split <;> rfl
            split <;> rename_i h <;> rw [h] at hd <;> exact hd
      · rw [h3, h5]; simp
      · intro c hc
        rcases List.mem_append.1 hc with h | h
        · exact h6 c h
        · exact h4 c h
    · split
      · exact ⟨by simp, rfl, [], by simp, by simp⟩
      · exact ⟨by simp, rfl, [], by simp, by simp⟩

/-! ## What every call does, whatever the environment: the logger -/

theorem LOG.SameSetup.setup_refl (log : LOG) : log.SameSetup log :=
  ⟨rfl, fun r h => ⟨r, h, rfl, rfl, rfl⟩⟩

theorem LOG.SameSetup.setup_trans {a b c : LOG} (h1 : a.SameSetup b) (h2 : b.SameSetup c) :
    a.SameSetup c := by
  refine ⟨h2.1.trans h1.1, fun r hr => ?_⟩
  obtain ⟨r1, e1, e2, e3, e4⟩ := h1.2 r hr
  obtain ⟨r2, f1, f2, f3, f4⟩ := h2.2 r1 e1
  exact ⟨r2, f1, f2.trans e2, f3.trans e3, f4.trans e4⟩

theorem fileWrite_dir (fs : FS) (file : Option Nat) (b : Str) (fault : Option Nat) :
    (fs.fileWrite file b fault).2.2.dir = fs.dir := by
  unfold FS.fileWrite
  cases file with
  | none => rfl
  | some fd =>
    simp only
    split <;> rfl

theorem WriteString_general (w : Writer) (fs : FS) (s : Str) (fault : Option Nat) :
    (w.WriteString fs s fault).1 ≤ s.length ∧
    (w.WriteString fs s fault).2.2.dir = fs.dir ∧
    ∃ pre, (w.WriteString fs s fault).2.2.calls =
        fs.calls ++ pre ++ [.writeString s (w.WriteString fs s fault).1] ∧
      ∀ c ∈ pre, ∃ f b n, c = IOCall.fileWrite f b n := by
  obtain ⟨h1, h2, post, h3, h4⟩ := writeLoop_general fault (s.length + 2) w fs s 0
  simp only [Writer.WriteString]
  refine ⟨by omega, h2, post, ?_, h4⟩
  simp [FS.record, h3]

theorem write_general (log : LOG) (fs : FS) (msg : Str) (fault : Option Nat) :
    (log.write fs msg fault).1 ≤ msg.length ∧
    log.SameSetup (log.write fs msg fault).2.1 ∧
    (log.write fs msg fault).2.1.rotation = log.rotation ∧
    (log.write fs msg fault).2.2.dir = fs.dir ∧
    ∃ pre, (log.write fs msg fault).2.2.calls = fs.calls ++ pre ++
        [if log.writer = none then .fileWrite log.file msg (log.write fs msg fault).1
          else .writeString msg (log.write fs msg fault).1] ∧
      (log.writer = none → pre = []) ∧
      ∀ c ∈ pre, ∃ f b n, c = IOCall.fileWrite f b n := by
  unfold LOG.write
  cases hw : log.writer with
  | none =>
    refine ⟨fileWrite_le _ _ _ _, LOG.SameSetup.setup_refl _, rfl, fileWrite_dir _ _ _ _, [], ?_,
      fun _ => rfl, by simp⟩
    simp [fileWrite_calls]
  | some w =>
    obtain ⟨h1, h2, pre, h3, h4⟩ := WriteString_general w fs msg fault
    refine ⟨h1, ⟨rfl, fun r h => ⟨r, h, rfl, rfl, rfl⟩⟩, rfl, h2, pre, ?_, ?_, h4⟩
    · simp [h3]
    · intro h; simp at h

theorem openFile_general (rot : Str) (log : LOG) (fs : FS) (e : OpenEnv) :
    FS.Step log.logFilePath rot fs (log.openFile fs e).state.2 ∧
    log.SameSetup (log.openFile fs e).state.1 := by
  have hs := osOpenFile_step rot fs log.logFilePath e.openFails
  unfold LOG.openFile
  cases hO : fs.osOpenFile log.logFilePath e.openFails with
  | mk fdo fs1 =>
    rw [hO] at hs
    cases fdo with
    | none => exact ⟨hs, LOG.SameSetup.setup_refl _⟩
    | some fd =>
      simp only
      have hsame : log.SameSetup
          (if log.logType = Asynchronous then
            { log with writer := some { fd := fd, buf := [], err := false } }
          else { log with file := some fd }) := by
        split
        · exact ⟨rfl, fun r h => ⟨r, h, rfl, rfl, rfl⟩⟩
        · exact ⟨rfl, fun r h => ⟨r, h, rfl, rfl, rfl⟩⟩
      cases e.statFails with
      | true => exact ⟨hs, hsame⟩
      | false =>
        simp only [Bool.false_eq_true, if_false]
        split
        · exact ⟨hs, hsame⟩
        · rename_i r hr
          refine ⟨hs, hsame.1, fun r0 h0 => ?_⟩
          obtain ⟨r1, e1, e2, e3, e4⟩ := hsame.2 r0 h0
          rw [hr] at e1
          cases e1
          exact ⟨_, rfl, e2, e3, e4⟩

theorem flushWriter_general (path rot : Str) (log : LOG) (fs : FS) (fault : Option Nat) :
    FS.Step path rot fs (log.flushWriter fs fault).2 ∧
    (log.flushWriter fs fault).1.rotation = log.rotation ∧
    (log.flushWriter fs fault).1.logFilePath = log.logFilePath := by
  unfold LOG.flushWriter
  cases log.writer with
  | none => exact ⟨FS.Step.step_refl _ _ _, rfl, rfl⟩
  | some w => exact ⟨Flush_step _ _ _ _ _, rfl, rfl⟩

theorem rotate_general (log : LOG) (fs : FS) (env : Env) (ts : Str) (r : Rotation)
    (hrot : log.rotation = some r) :
    FS.Step log.logFilePath (rotatedFile r.rotatedLogDir ts) fs (log.rotate fs env ts).state.2 ∧
    log.SameSetup (log.rotate fs env ts).state.1 := by
  obtain ⟨f1, f2, f3⟩ := flushWriter_general log.logFilePath (rotatedFile r.rotatedLogDir ts) log
    fs env.flushFault
  have c1 := fileClose_step log.logFilePath (rotatedFile r.rotatedLogDir ts)
    (log.flushWriter fs env.flushFault).2 (log.flushWriter fs env.flushFault).1.file
  have r1 := osRename_step ((log.flushWriter fs env.flushFault).2.fileClose
    (log.flushWriter fs env.flushFault).1.file) log.logFilePath
    (rotatedFile r.rotatedLogDir ts) env.renameFails
  have hA : log.SameSetup (log.flushWriter fs env.flushFault).1 :=
    ⟨f3, fun r0 h0 => ⟨r0, by rw [f2]; exact h0, rfl, rfl, rfl⟩⟩
  unfold LOG.rotate
  simp only [f2, hrot, f3]
  cases hR : ((log.flushWriter fs env.flushFault).2.fileClose
    (log.flushWriter fs env.flushFault).1.file).osRename log.logFilePath
    (rotatedFile r.rotatedLogDir ts) env.renameFails with
  | mk ok fs3 =>
    rw [hR] at r1
    have s3 := (f1.step_trans c1).step_trans r1
    cases ok with
    | false => exact ⟨s3, hA⟩
    | true =>
      simp only
      obtain ⟨o1, o2⟩ := openFile_general (rotatedFile r.rotatedLogDir ts)
        { (log.flushWriter fs env.flushFault).1 with writer := none } fs3 env.reopen
      simp only [f3] at o1
      have hB : log.SameSetup { (log.flushWriter fs env.flushFault).1 with writer := none } :=
        ⟨f3, fun r0 h0 => ⟨r0, by simp only [f2]; exact h0, rfl, rfl, rfl⟩⟩
      have hC := hB.setup_trans o2
      simp only [f2, hrot, f3] at o1 hC
      split <;> rename_i h <;> rw [h] at o1 hC <;> exact ⟨s3.step_trans o1, hC⟩

/-! ## What every call does, whatever the environment: `Log` -/

theorem timeBasedRotation_general (log : LOG) (fs : FS) (env : Env) (ts : Str) (r : Rotation)
    (hrot : log.rotation = some r) :
    FS.Step log.logFilePath (rotatedFile r.rotatedLogDir ts) fs
      (log.timeBasedRotation fs env ts).state.2 ∧
    log.SameSetup (log.timeBasedRotation fs env ts).state.1 := by
  obtain ⟨h1, h2⟩ := rotate_general log fs env ts r hrot
  unfold LOG.timeBasedRotation
  cases hR : log.rotate fs env ts with
  | panicked p l f => rw [hR] at h1 h2; exact ⟨h1, h2⟩
  | done l f =>
    rw [hR] at h1 h2
    simp only
    split
    · exact ⟨h1, h2⟩
    · rename_i r1 hr1
      refine ⟨h1, h2.1, fun r0 h0 => ?_⟩
      obtain ⟨r2, e1, e2, e3, e4⟩ := h2.2 r0 h0
      simp only [RotationResult.state] at e1
      rw [hr1] at e1
      cases e1
      exact ⟨_, rfl, e2, e3, e4⟩

theorem afterWrite_general (log : LOG) (fs : FS) (env : Env) (ts : Str) (n : Nat)
    (r : Rotation) (hrot : log.rotation = some r) :
    FS.Step log.logFilePath (rotatedFile r.rotatedLogDir ts) fs (log.afterWrite fs env ts n).2.2 ∧
    log.SameSetup (log.afterWrite fs env ts n).2.1 := by
  unfold LOG.afterWrite
  simp only [hrot]
  have hS0 : log.SameSetup { log with rotation := some { r with
      currentFileSize := r.currentFileSize + (n : Int) } } :=
    ⟨rfl, fun r0 h0 => by rw [hrot] at h0; cases h0; exact ⟨_, rfl, rfl, rfl, rfl⟩⟩
  have key : ∀ (l : LOG) (f : FS),
      FS.Step log.logFilePath (rotatedFile r.rotatedLogDir ts) fs f → log.SameSetup l →
      FS.Step log.logFilePath (rotatedFile r.rotatedLogDir ts) fs
        (match l.rotation with
          | none => (Outcome.success, l, f)
          | some r2 =>
            if r2.rotationType = TimeBasedRotation ∧
                r2.currentFileDate ≠ getCurrentDateString env.checkNow then
              match l.timeBasedRotation f env ts with
              | .panicked p log3 fs3 => (Outcome.panic p, log3, fs3)
              | .done log3 fs3 => (Outcome.success, log3, fs3)
            else (Outcome.success, l, f)).2.2 ∧
      log.SameSetup
        (match l.rotation with
          | none => (Outcome.success, l, f)
          | some r2 =>
            if r2.rotationType = TimeBasedRotation ∧
                r2.currentFileDate ≠ getCurrentDateString env.checkNow then
              match l.timeBasedRotation f env ts with
              | .panicked p log3 fs3 => (Outcome.panic p, log3, fs3)
              | .done log3 fs3 => (Outcome.success, log3, fs3)
            else (Outcome.success, l, f)).2.1 := by
    intro l f hf hl
    obtain ⟨r2, e1, e2, -, -⟩ := hl.2 r hrot
    simp only [e1]
    split
    · obtain ⟨t1, t2⟩ := timeBasedRotation_general l f env ts r2 e1
      rw [hl.1, e2] at t1
      cases hT : l.timeBasedRotation f env ts with
      | panicked p l3 f3 => rw [hT] at t1 t2; exact ⟨hf.step_trans t1, hl.setup_trans t2⟩
      | done l3 f3 => rw [hT] at t1 t2; exact ⟨hf.step_trans t1, hl.setup_trans t2⟩
    · exact ⟨hf, hl⟩
  by_cases hcond : r.rotationType = SizeBasedRotation ∧
      r.currentFileSize + (n : Int) ≥ r.rotationSize
  · obtain ⟨h1, h2⟩ := rotate_general { log with rotation := some { r with
      currentFileSize := r.currentFileSize + (n : Int) } } fs env ts _ rfl
    rw [if_pos hcond]
    simp only [LOG.sizeBasedRotation]
    cases hR : LOG.rotate { log with rotation := some { r with
      currentFileSize := r.currentFileSize + (n : Int) } } fs env ts with
    | panicked p l f => rw [hR] at h1 h2; exact ⟨h1, hS0.setup_trans h2⟩
    | done l f =>
      rw [hR] at h1 h2
      exact key l f h1 (hS0.setup_trans h2)
  · rw [if_neg hcond]
    exact key _ fs (FS.Step.step_refl _ _ _) hS0

theorem ensureOpen_general (rot : Str) (log : LOG) (fs : FS) (e : OpenEnv) :
    FS.Step log.logFilePath rot fs (log.ensureOpen fs e).state.2 ∧
    log.SameSetup (log.ensureOpen fs e).state.1 := by
  unfold LOG.ensureOpen
  split
  · exact openFile_general rot log fs e
  · exact ⟨FS.Step.step_refl _ _ _, LOG.SameSetup.setup_refl _⟩

/-- Whatever the environment does, a call of `Log` only adds to the record of calls and
leaves every directory entry alone except the active path and the rotation target. -/
theorem Log_general (log : LOG) (fs : FS) (env : Env) (level : Int) (data : Str)
    (r : Rotation) (hrot : log.rotation = some r) :
    FS.Step log.logFilePath (rotatedFile r.rotatedLogDir (getLogTime env.now)) fs
      (log.Log fs env level data).2.2 ∧
    log.SameSetup (log.Log fs env level data).2.1 := by
  unfold LOG.Log
  simp only
  cases severityName level with
  | none => exact ⟨FS.Step.step_refl _ _ _, LOG.SameSetup.setup_refl _⟩
  | some nm =>
    simp only
    obtain ⟨e1, e2⟩ := ensureOpen_general (rotatedFile r.rotatedLogDir (getLogTime env.now)) log fs
      env.lazyOpen
    cases hE : log.ensureOpen fs env.lazyOpen with
    | failed l f => rw [hE] at e1 e2; exact ⟨e1, e2⟩
    | panicked p l f => rw [hE] at e1 e2; exact ⟨e1, e2⟩
    | done l f =>
      rw [hE] at e1 e2
      simp only [OpenResult.state] at e1 e2
      simp only
      split
      · exact ⟨e1, e2⟩
      · obtain ⟨-, w2, w3, w4, pre, w5, -, w7⟩ := write_general l f
          (formatRecord nm (getLogTime env.now) (getLogFilePlace env.caller) data) env.writeFault
        obtain ⟨r1, q1, q2, -, -⟩ := e2.2 r hrot
        obtain ⟨a1, a2⟩ := afterWrite_general
          (l.write f (formatRecord nm (getLogTime env.now) (getLogFilePlace env.caller) data)
            env.writeFault).2.1
          (l.write f (formatRecord nm (getLogTime env.now) (getLogFilePlace env.caller) data)
            env.writeFault).2.2 env (getLogTime env.now)
          (l.write f (formatRecord nm (getLogTime env.now) (getLogFilePlace env.caller) data)
            env.writeFault).1 r1 (by rw [w3]; exact q1)
        rw [w2.1, e2.1, q2] at a1
        have hw : FS.Step log.logFilePath (rotatedFile r.rotatedLogDir (getLogTime env.now)) f
            (l.write f (formatRecord nm (getLogTime env.now) (getLogFilePlace env.caller) data)
              env.writeFault).2.2 := by
          refine ⟨⟨_, by rw [w5, List.append_assoc], fun o n ok h => ?_⟩, fun p _ _ => by rw [w4]⟩
          rcases List.mem_append.1 h with h | h
          · obtain ⟨_, _, _, h1⟩ := w7 _ h
            cases h1
          · rw [List.mem_singleton] at h
            split at h <;> cases h
        exact ⟨(e1.step_trans hw).step_trans a1, (e2.setup_trans w2).setup_trans a2⟩

/-! ## Reading a record back -/

theorem takeWhile_stop (p : Char → Bool) (a rest : Str) (x : Char)
    (ha : ∀ c ∈ a, p c = true) (hx : p x = false) :
    (a ++ x :: rest).takeWhile p = a := by
  induction a with
  | nil => simp [List.takeWhile, hx]
  | cons c cs ih =>
    have hc : p c = true := ha c (by simp)
    have := ih (fun d hd => ha d (by simp [hd]))
    simp [List.takeWhile_cons, hc, this]

theorem drop_length_add (a rest : Str) (k : Nat) :
    (a ++ rest).drop (a.length + k) = rest.drop k := by
  induction a with
  | nil => simp
  | cons c cs ih =>
    simp only [List.cons_append, List.length_cons]
    rw [show cs.length + 1 + k = (cs.length + k) + 1 by omega, List.drop_succ_cons, ih]

theorem parse_format (severity time place data : Str)
    (hs : ∀ c ∈ severity, c ≠ ' ') (ht : ∀ c ∈ time, c ≠ '-') (hp : ∀ c ∈ place, c ≠ ' ') :
    parseRecord (formatRecord severity time place data) = (severity, time, place, data) := by
  have e1 : (formatRecord severity time place data).takeWhile (fun c => c ≠ ' ') = severity := by
    have : formatRecord severity time place data =
        severity ++ ' ' :: ([' '] ++ time ++ [' ', '-', ' '] ++ place ++ [':', ' ', ' '] ++ data
          ++ ['\n']) := by simp [formatRecord]
    rw [this]
    exact takeWhile_stop _ _ _ _ (fun c hc => by simpa using hs c hc) (by simp)
  have e2 : (formatRecord severity time place data).drop (severity.length + 2) =
      (time ++ [' ']) ++ '-' :: ([' '] ++ place ++ [':', ' ', ' '] ++ data ++ ['\n']) := by
    have : formatRecord severity time place data =
        severity ++ ([' ', ' '] ++ time ++ [' ', '-', ' '] ++ place ++ [':', ' ', ' '] ++ data
          ++ ['\n']) := by simp [formatRecord]
    rw [this, drop_length_add]
    simp
  have e3 : ((time ++ [' ']) ++ '-' :: ([' '] ++ place ++ [':', ' ', ' '] ++ data ++ ['\n'])).takeWhile
      (fun c => c ≠ '-') = time ++ [' '] := by
    refine takeWhile_stop _ _ _ _ (fun c hc => ?_) (by simp)
    rcases List.mem_append.1 hc with h | h
    · simpa using ht c h
    · simp at h; subst h; decide
  have e4 : ((time ++ [' ']) ++ '-' :: ([' '] ++ place ++ [':', ' ', ' '] ++ data ++ ['\n'])).drop
      ((time ++ [' ']).length + 2) = (place ++ [':']) ++ ' ' :: ([' '] ++ data ++ ['\n']) := by
    rw [drop_length_add]
    simp
  have e5 : ((place ++ [':']) ++ ' ' :: ([' '] ++ data ++ ['\n'])).takeWhile
      (fun c => c ≠ ' ') = place ++ [':'] := by
    refine takeWhile_stop _ _ _ _ (fun c hc => ?_) (by simp)
    rcases List.mem_append.1 hc with h | h
    · simpa using hp c h
    · simp at h; subst h; decide
  have e6 : ((place ++ [':']) ++ ' ' :: ([' '] ++ data ++ ['\n'])).drop
      ((place ++ [':']).length + 2) = data ++ ['\n'] := by
    rw [drop_length_add]
    simp
  simp only [parseRecord, e1, e2, e3, e4, e5, e6, List.dropLast_concat]

/-! ## The bytes of time stamps and caller locations -/

theorem digitChar_mem (m : Nat) (h : m < 10) :
    Nat.digitChar m ∈ ['0', '1', '2', '3', '4', '5', '6', '7', '8', '9'] := by
  interval_cases m <;> decide

theorem toDigitsCore_mem (fuel : Nat) : ∀ (n : Nat) (ds : List Char),
    (∀ c ∈ ds, c ∈ ['0', '1', '2', '3', '4', '5', '6', '7', '8', '9']) →
    ∀ c ∈ Nat.toDigitsCore 10 fuel n ds,
      c ∈ ['0', '1', '2', '3', '4', '5', '6', '7', '8', '9'] := by
  induction fuel with
  | zero => intro n ds h c hc; simpa [Nat.toDigitsCore] using h c hc
  | succ fuel ih =>
    intro n ds h c hc
    simp only [Nat.toDigitsCore] at hc
    have hd := digitChar_mem (n % 10) (Nat.mod_lt _ (by decide))
    have h2 : ∀ c ∈ Nat.digitChar (n % 10) :: ds,
        c ∈ ['0', '1', '2', '3', '4', '5', '6', '7', '8', '9'] := by
      intro c hc
      rcases List.mem_cons.1 hc with h1 | h1
      · rw [h1]; exact hd
      · exact h c h1
    split at hc
    · exact h2 c hc
    · exact ih _ _ h2 c hc

theorem toDigits_mem (n : Nat) : ∀ c ∈ Nat.toDigits 10 n,
    c ∈ ['0', '1', '2', '3', '4', '5', '6', '7', '8', '9'] :=
  toDigitsCore_mem _ _ _ (by simp)

theorem itoa_nonneg_ne (n : Int) (h : 0 ≤ n) (x : Char)
    (hx : x ∉ ['0', '1', '2', '3', '4', '5', '6', '7', '8', '9']) : ∀ c ∈ itoa n, c ≠ x := by
  intro c hc he
  have hn : ¬ n < 0 := by omega
  simp only [itoa, hn, if_false] at hc
  exact hx (he ▸ toDigits_mem _ c hc)

theorem itoa_ne (n : Int) (x : Char)
    (hx : x ∉ ['0', '1', '2', '3', '4', '5', '6', '7', '8', '9']) (hm : x ≠ '-') :
    ∀ c ∈ itoa n, c ≠ x := by
  intro c hc he
  by_cases hn : n < 0
  · simp only [itoa, hn, if_true] at hc
    rcases List.mem_cons.1 hc with h | h
    · exact hm (he ▸ h)
    · exact hx (he ▸ toDigits_mem _ c h)
  · exact itoa_nonneg_ne n (by omega) x hx c hc he

theorem monthString_ne (m : Nat) (x : Char) (hx : x = '-' ∨ x = ' ' ∨ x = '\n') :
    ∀ c ∈ monthString m, c ≠ x := by
  have hd : x ∉ ['0', '1', '2', '3', '4', '5', '6', '7', '8', '9'] := by
    rcases hx with h | h | h <;> subst h <;> decide
  intro c hc he
  subst he
  unfold monthString at hc
  split at hc
  case h_13 =>
    simp only [List.mem_append, List.mem_singleton] at hc
    rcases hc with (hc | hc) | hc
    · rcases hx with h | h | h <;> subst h <;> revert hc <;> decide
    · exact itoa_nonneg_ne _ (by omega) c hd c hc rfl
    · rcases hx with h | h | h <;> subst h <;> revert hc <;> decide
  all_goals (rcases hx with h | h | h <;> subst h <;> revert hc <;> decide)

theorem getLogTime_no_newline (t : Time) : ∀ c ∈ getLogTime t, c ≠ '\n' := by
  intro c hc
  simp only [getLogTime, List.mem_append, List.mem_singleton] at hc
  have hd : '\n' ∉ ['0', '1', '2', '3', '4', '5', '6', '7', '8', '9'] := by decide
  have hi := fun n => itoa_ne n '\n' hd (by decide) c
  have hm := monthString_ne t.month '\n' (Or.inr (Or.inr rfl)) c
  rcases hc with ((((((((((h | h) | h) | h) | h) | h) | h) | h) | h) | h) | h)
  · exact hi _ h
  · subst h; decide
  · exact hm h
  · subst h; decide
  · exact hi _ h
  · subst h; decide
  · exact hi _ h
  · subst h; decide
  · exact hi _ h
  · subst h; decide
  · exact hi _ h

theorem getLogTime_no_dash (t : Time) (hy : 0 ≤ t.year) : ∀ c ∈ getLogTime t, c ≠ '-' := by
  intro c hc
  simp only [getLogTime, List.mem_append, List.mem_singleton] at hc
  have hd : '-' ∉ ['0', '1', '2', '3', '4', '5', '6', '7', '8', '9'] := by decide
  have hi := fun n (h : (0 : Int) ≤ n) => itoa_nonneg_ne n h '-' hd c
  have hm := monthString_ne t.month '-' (Or.inl rfl) c
  rcases hc with ((((((((((h | h) | h) | h) | h) | h) | h) | h) | h) | h) | h)
  · exact hi _ hy h
  · subst h; decide
  · exact hm h
  · subst h; decide
  · exact hi _ (by omega) h
  · subst h; decide
  · exact hi _ (by omega) h
  · subst h; decide
  · exact hi _ (by omega) h
  · subst h; decide
  · exact hi _ (by omega) h

theorem lastFileName_mem (file : Str) (i : Nat) : ∀ c ∈ lastFileName file i, c ∈ file := by
  induction i with
  | zero => intro c hc; exact hc
  | succ i ih =>
    intro c hc
    simp only [lastFileName] at hc
    split at hc
    · exact List.mem_of_mem_drop hc
    · exact ih c hc

theorem getLogFilePlace_ne (file : Str) (line : Int) (x : Char)
    (hx : x = ' ' ∨ x = '\n') (hf : ∀ c ∈ file, c ≠ x) :
    ∀ c ∈ getLogFilePlace (some (file, line)), c ≠ x := by
  have hd : x ∉ ['0', '1', '2', '3', '4', '5', '6', '7', '8', '9'] := by
    rcases hx with h | h <;> subst h <;> decide
  have hm : x ≠ '-' := by rcases hx with h | h <;> subst h <;> decide
  intro c hc
  simp only [getLogFilePlace, List.mem_append, List.mem_singleton] at hc
  rcases hc with (h | h) | h
  · exact hf c (lastFileName_mem _ _ c h)
  · subst h; rcases hx with h | h <;> subst h <;> decide
  · exact itoa_ne line x hd hm c h

theorem getLogFilePlace_none : getLogFilePlace none = ['?', '?', '?', ':', '0'] := by decide

/-! ## Severity filter -/

theorem write_logLevel (log : LOG) (fs : FS) (msg : Str) (f : Option Nat) :
    (log.write fs msg f).2.1.logLevel = log.logLevel := by
  unfold LOG.write
  cases log.writer <;> rfl

theorem afterWrite_ne_excluded (log : LOG) (fs : FS) (env : Env) (ts : Str) (n : Nat) :
    (log.afterWrite fs env ts n).1 ≠ .severityExcluded := by
  unfold LOG.afterWrite
  cases log.rotation with
  | none => simp
  | some r =>
    simp only
    split
    · simp
    · split
      · simp
      · split
        · split <;> simp
        · simp

theorem openFile_logLevel (log : LOG) (fs : FS) (e : OpenEnv) :
    (log.openFile fs e).state.1.logLevel = log.logLevel := by
  unfold LOG.openFile
  cases hO : fs.osOpenFile log.logFilePath e.openFails with
  | mk fdo fs1 =>
    cases fdo with
    | none => rfl
    | some fd =>
      simp only
      have h1 : (if log.logType = Asynchronous then
            ({ log with writer := some { fd := fd, buf := [], err := false } } : LOG)
          else { log with file := some fd }).logLevel = log.logLevel := by
        split <;> rfl
      cases e.statFails with
      | true => exact h1
      | false =>
        simp only [Bool.false_eq_true, if_false]
        split
        · exact h1
        · exact h1

theorem ensureOpen_logLevel (log : LOG) (fs : FS) (e : OpenEnv) (log1 : LOG) (fs1 : FS)
    (h : log.ensureOpen fs e = .done log1 fs1) : log1.logLevel = log.logLevel := by
  unfold LOG.ensureOpen at h
  split at h
  · have := openFile_logLevel log fs e
    rw [h] at this
    exact this
  · cases h; rfl

/-- When `os.OpenFile` and `file.Stat()` succeed and a rotation is configured, the lazy
`openFile` returns nil, makes the one call, writes nothing and renames nothing. -/
theorem openFile_quiet (log : LOG) (fs : FS) (e : OpenEnv) (r : Rotation)
    (hun : log.Unopened) (hrot : log.rotation = some r)
    (ho : e.openFails = false) (hs : e.statFails = false) :
    ∃ l f, log.openFile fs e = .done l f ∧ l.logLevel = log.logLevel ∧
      f.calls = fs.calls ++ [.osOpenFile log.logFilePath (some fs.nextFd)] ∧
      f.renames = fs.renames ∧
      f.contentAt log.logFilePath = fs.contentAt log.logFilePath ∧
      l.sizeNow f = log.sizeNow fs := by
  have hu : log.file = none ∧ log.writer = none := hun
  have hsz : log.sizeNow fs = (fs.sizeAt log.logFilePath : Int) := by
    simp only [LOG.sizeNow, hu, and_self, if_true]
  have h1 : Function.update fs.fdIno fs.nextFd fs.nextIno fs.nextFd = fs.nextIno :=
    Function.update_same _ _ _
  have h2 : Function.update fs.data fs.nextIno ([] : Str) fs.nextIno = [] :=
    Function.update_same _ _ _
  have h3 : ∀ j, Function.update fs.fdIno fs.nextFd j fs.nextFd = j :=
    fun j => Function.update_same _ _ _
  have h4 : Function.update fs.dir log.logFilePath (some fs.nextIno) log.logFilePath =
      some fs.nextIno := Function.update_same _ _ _
  rw [hsz]
  unfold LOG.openFile FS.osOpenFile
  cases hd : fs.dir log.logFilePath with
  | none =>
    by_cases ht : log.logType = Asynchronous
    · simp only [ho, hs, ht, hrot, if_true, if_false, Bool.false_eq_true]
      refine ⟨_, _, rfl, rfl, rfl, ?_, ?_, ?_⟩
      · simp [FS.renames, List.filterMap_append]
      · simp only [FS.contentAt, h4, hd, h2]
      · simp only [LOG.sizeNow, FS.sizeAt, FS.statSize, hd]
        rw [h1, h2]
        simp
    · simp only [ho, hs, ht, hrot, if_true, if_false, Bool.false_eq_true]
      refine ⟨_, _, rfl, rfl, rfl, ?_, ?_, ?_⟩
      · simp [FS.renames, List.filterMap_append]
      · simp only [FS.contentAt, h4, hd, h2]
      · simp only [LOG.sizeNow, FS.sizeAt, FS.statSize, hd]
        rw [h1, h2]
        simp
  | some j =>
    by_cases ht : log.logType = Asynchronous
    · simp only [ho, hs, ht, hrot, if_true, if_false, Bool.false_eq_true]
      refine ⟨_, _, rfl, rfl, rfl, ?_, ?_, ?_⟩
      · simp [FS.renames, List.filterMap_append]
      · simp only [FS.contentAt, hd]
      · simp only [LOG.sizeNow, FS.sizeAt, FS.statSize, hd]
        rw [h3 j]
        simp
    · simp only [ho, hs, ht, hrot, if_true, if_false, Bool.false_eq_true]
      refine ⟨_, _, rfl, rfl, rfl, ?_, ?_, ?_⟩
      · simp [FS.renames, List.filterMap_append]
      · simp only [FS.contentAt, hd]
      · simp only [LOG.sizeNow, FS.sizeAt, FS.statSize, hd]
        rw [h3 j]
        simp

/-- C1. On a logger with a rotation policy, for every valid level `0..4` and every minimum
`logLevel`, when the lazy open of first use does not fail: `Log` returns `errSeverityLevel`
("Severity level excluded") if and only if `level < logLevel`.  A filtered call on a logger
whose file is open changes neither the logger nor the file system; on a logger not yet opened
it does what `openFile` does, a single `os.OpenFile`; in both cases it renames nothing and
leaves the content of the active file and the accounted size (`currentFileSize`, or the
size on disk that the lazy open reads into it) as they were. -/
theorem Log_filtered_iff (log : LOG) (fs : FS) (env : Env) (level : Int) (data : Str)
    (r : Rotation) (hrot : log.rotation = some r) (h0 : 0 ≤ level) (h4 : level ≤ 4)
    (hio : log.Unopened →
      env.lazyOpen.openFails = false ∧ env.lazyOpen.statFails = false) :
    ((log.Log fs env level data).1 = .severityExcluded ↔ level < log.logLevel) ∧
    (level < log.logLevel → ¬ log.Unopened → (log.Log fs env level data).2 = (log, fs)) ∧
    (level < log.logLevel → log.Unopened →
      log.openFile fs env.lazyOpen =
        .done (log.Log fs env level data).2.1 (log.Log fs env level data).2.2 ∧
      (log.Log fs env level data).2.2.calls =
        fs.calls ++ [.osOpenFile log.logFilePath (some fs.nextFd)]) ∧
    (level < log.logLevel →
      (log.Log fs env level data).2.2.renames = fs.renames ∧
      (log.Log fs env level data).2.2.contentAt log.logFilePath =
        fs.contentAt log.logFilePath ∧
      (log.Log fs env level data).2.1.sizeNow (log.Log fs env level data).2.2 =
        log.sizeNow fs) := by
  obtain ⟨nm, hnm, -⟩ := severityName_some level h0 h4
  by_cases hopen : log.Unopened
  · obtain ⟨ho, hs⟩ := hio hopen
    obtain ⟨l, f, hof, hlv, hcalls, hren, hcont, hsz⟩ :=
      openFile_quiet log fs env.lazyOpen r hopen hrot ho hs
    have hu : log.file = none ∧ log.writer = none := hopen
    by_cases hl : level < log.logLevel
    · have hf : level < 0 ∨ level > 4 ∨ level < l.logLevel := by rw [hlv]; exact Or.inr (Or.inr hl)
      have hL : log.Log fs env level data = (.severityExcluded, l, f) := by
        simp only [LOG.Log, hnm, LOG.ensureOpen, hu, and_self, if_true, hof, hf]
      rw [hL]
      exact ⟨⟨fun _ => hl, fun _ => rfl⟩, fun _ h => absurd hopen h, fun _ _ => ⟨hof, hcalls⟩,
        fun _ => ⟨hren, hcont, hsz⟩⟩
    · have hf : ¬ (level < 0 ∨ level > 4 ∨ level < l.logLevel) := by rw [hlv]; omega
      have hL : (log.Log fs env level data).1 ≠ .severityExcluded := by
        simp only [LOG.Log, hnm, LOG.ensureOpen, hu, and_self, if_true, hof, hf, if_false]
        exact afterWrite_ne_excluded _ _ _ _ _
      exact ⟨⟨fun h => absurd h hL, fun h => absurd h hl⟩,
        fun h => absurd h hl, fun h => absurd h hl, fun h => absurd h hl⟩
  · have hu : ¬ (log.file = none ∧ log.writer = none) := hopen
    by_cases hl : level < log.logLevel
    · have hf : level < 0 ∨ level > 4 ∨ level < log.logLevel := Or.inr (Or.inr hl)
      have hL : log.Log fs env level data = (.severityExcluded, log, fs) := by
        simp only [LOG.Log, hnm, LOG.ensureOpen, hu, if_false, hf, if_true]
      rw [hL]
      exact ⟨⟨fun _ => hl, fun _ => rfl⟩, fun _ _ => rfl, fun _ h => absurd h hopen,
        fun _ => ⟨rfl, rfl, rfl⟩⟩
    · have hf : ¬ (level < 0 ∨ level > 4 ∨ level < log.logLevel) := by omega
      have hL : (log.Log fs env level data).1 ≠ .severityExcluded := by
        simp only [LOG.Log, hnm, LOG.ensureOpen, hu, if_false, hf]
        exact afterWrite_ne_excluded _ _ _ _ _
      exact ⟨⟨fun h => absurd h hL, fun h => absurd h hl⟩,
        fun h => absurd h hl, fun h => absurd h hl, fun h => absurd h hl⟩

theorem Log_filtered_iff_witness :
    (((rotatingLogger SizeBasedRotation).SetLogLevel Warning).Log emptyFS (calmEnv day4 day4)
        Info ['x']).1 = .severityExcluded ∧
    (((rotatingLogger SizeBasedRotation).SetLogLevel Warning).Log emptyFS (calmEnv day4 day4)
        Error ['x']).1 ≠ .severityExcluded := by
  have h1 := Log_filtered_iff ((rotatingLogger SizeBasedRotation).SetLogLevel Warning) emptyFS
    (calmEnv day4 day4) Info ['x'] _ rfl (by decide) (by decide) (fun _ => ⟨rfl, rfl⟩)
  have h2 := Log_filtered_iff ((rotatingLogger SizeBasedRotation).SetLogLevel Warning) emptyFS
    (calmEnv day4 day4) Error ['x'] _ rfl (by decide) (by decide) (fun _ => ⟨rfl, rfl⟩)
  exact ⟨h1.1.2 (by decide), fun h => absurd (h2.1.1 h) (by decide)⟩

/-! ## The record handed to the file or the writer -/

theorem write_then_afterWrite_calls (log1 : LOG) (fs1 : FS) (env : Env) (ts msg : Str) :
    ∃ n pre post,
      ((log1.write fs1 msg env.writeFault).2.1.afterWrite
          (log1.write fs1 msg env.writeFault).2.2 env ts
          (log1.write fs1 msg env.writeFault).1).2.2.calls =
        fs1.calls ++ pre ++
          [if log1.writer = none then IOCall.fileWrite log1.file msg n
            else IOCall.writeString msg n] ++ post ∧
      (log1.writer = none → pre = []) ∧
      (∀ c ∈ pre, ∃ f b k, c = IOCall.fileWrite f b k) := by
  obtain ⟨-, -, w3, -, pre, w5, w6, w7⟩ := write_general log1 fs1 msg env.writeFault
  cases hr : (log1.write fs1 msg env.writeFault).2.1.rotation with
  | none =>
    refine ⟨(log1.write fs1 msg env.writeFault).1, pre, [], ?_, w6, w7⟩
    simp only [LOG.afterWrite, hr, List.append_nil]
    exact w5
  | some r2 =>
    obtain ⟨⟨post, a1, -⟩, -⟩ := (afterWrite_general _ (log1.write fs1 msg env.writeFault).2.2 env ts
      (log1.write fs1 msg env.writeFault).1 r2 hr).1
    refine ⟨(log1.write fs1 msg env.writeFault).1, pre, post, ?_, w6, w7⟩
    rw [a1, w5]

/-- C2. For every call with a valid level (`severityLevels[level] = name`) that is not
filtered and whose lazy open, if any, has returned, the calls `Log` makes after the open are:
in asynchronous mode only, flushes of earlier buffered bytes; then the write, which is
`log.file.Write` when `log.writer == nil` and `log.writer.WriteString` otherwise, handed in
both modes the same bytes
`name ++ "  " ++ <year> <month> <day> <hour>:<minute>:<second> ++ " - " ++ callerLocation
++ ":  " ++ data ++ "\n"`; then whatever a rotation adds.  The caller location is `???:0`
when the caller is unavailable and `<file>:<line>` otherwise. -/
theorem Log_hands_formatted_record (log : LOG) (fs : FS) (env : Env) (level : Int)
    (data : Str) (log1 : LOG) (fs1 : FS) (name : Str)
    (h0 : 0 ≤ level) (hname : severityLevels.get? level.toNat = some name)
    (hopen : log.ensureOpen fs env.lazyOpen = .done log1 fs1)
    (hl : log.logLevel ≤ level) :
    (∃ n pre post,
      (log.Log fs env level data).2.2.calls = fs1.calls ++ pre ++
        [if log1.writer = none then
            IOCall.fileWrite log1.file
              (name ++ [' ', ' '] ++
                (itoa env.now.year ++ [' '] ++ monthString env.now.month ++ [' '] ++
                  itoa env.now.day ++ [' '] ++ itoa env.now.hour ++ [':'] ++
                  itoa env.now.min ++ [':'] ++ itoa env.now.sec) ++
                [' ', '-', ' '] ++ getLogFilePlace env.caller ++ [':', ' ', ' '] ++ data ++
                ['\n']) n
          else
            IOCall.writeString
              (name ++ [' ', ' '] ++
                (itoa env.now.year ++ [' '] ++ monthString env.now.month ++ [' '] ++
                  itoa env.now.day ++ [' '] ++ itoa env.now.hour ++ [':'] ++
                  itoa env.now.min ++ [':'] ++ itoa env.now.sec) ++
                [' ', '-', ' '] ++ getLogFilePlace env.caller ++ [':', ' ', ' '] ++ data ++
                ['\n']) n] ++ post ∧
      (log1.writer = none → pre = []) ∧
      (∀ c ∈ pre, ∃ f b k, c = IOCall.fileWrite f b k)) ∧
    getLogFilePlace none = ['?', '?', '?', ':', '0'] ∧
    (∀ file line, getLogFilePlace (some (file, line)) =
      lastFileName file (file.length - 1) ++ [':'] ++ itoa line) := by
  refine ⟨?_, getLogFilePlace_none, fun _ _ => rfl⟩
  have h4 : level ≤ 4 := by
    by_contra hc
    have : 5 ≤ level.toNat := by omega
    have hn : severityLevels.get? level.toNat = none := by
      simp [severityLevels, List.get?_eq_none]; omega
    rw [hn] at hname
    cases hname
  have hsev : severityName level = some name := by
    have : ¬ level < 0 := by omega
    simp only [severityName, this, if_false, hname]
  have hlv := ensureOpen_logLevel log fs env.lazyOpen log1 fs1 hopen
  have hL := Log_of_open log fs env level data log1 fs1 hopen h0 h4 (by rw [hlv]; exact hl)
  have hrec : Call.record ⟨env, level, data⟩ =
      name ++ [' ', ' '] ++
        (itoa env.now.year ++ [' '] ++ monthString env.now.month ++ [' '] ++
          itoa env.now.day ++ [' '] ++ itoa env.now.hour ++ [':'] ++
          itoa env.now.min ++ [':'] ++ itoa env.now.sec) ++
        [' ', '-', ' '] ++ getLogFilePlace env.caller ++ [':', ' ', ' '] ++ data ++ ['\n'] := by
    simp only [Call.record, hsev, Option.getD_some, formatRecord, getLogTime]
  rw [hrec] at hL
  rw [hL]
  exact write_then_afterWrite_calls log1 fs1 env _ _

theorem Log_hands_formatted_record_witness :
    ∃ n pre post,
      ((rotatingLogger TimeBasedRotation).Log emptyFS (calmEnv day4 day4) Info
          "hello".toList).2.2.calls =
        [IOCall.osOpenFile "data.log".toList (some 3)] ++ pre ++
          [IOCall.fileWrite (some 3)
            "info  2026 November 4 23:59:58 - main.go:32:  hello\n".toList n] ++ post := by
  obtain ⟨⟨n, pre, post, h, -, -⟩, -, -⟩ :=
    Log_hands_formatted_record (rotatingLogger TimeBasedRotation) emptyFS (calmEnv day4 day4) Info
      "hello".toList _ _ "info".toList (by decide) (by decide)
      (show (rotatingLogger TimeBasedRotation).ensureOpen emptyFS (calmEnv day4 day4).lazyOpen =
        .done _ _ from rfl) (by decide)
  exact ⟨n, pre, post, h⟩

/-! ## Size-based rotation -/

theorem emptyFS_bounded : emptyFS.Bounded := by
  intro p i h
  simp [emptyFS] at h

theorem rotatingLogger_pathSet (t : Int) : (rotatingLogger t).PathSet := Or.inl rfl

theorem rotatingLogger_unopened (t : Int) : (rotatingLogger t).Unopened := ⟨rfl, rfl⟩

theorem calmEnv_calm (a b : Time) : (calmEnv a b).Calm := ⟨rfl, rfl, rfl, rfl, rfl, rfl, rfl⟩

/-- The loggers used as concrete inputs are what the setters produce. -/
theorem rotatingLogger_reachable :
    InitLogger.SetLogRotation "rotated/".toList SizeBasedRotation true =
      some (rotatingLogger SizeBasedRotation) ∧
    InitLogger.SetLogRotation "rotated".toList TimeBasedRotation true =
      some (rotatingLogger TimeBasedRotation) := by
  decide

/-- The path `SetLogDirectory` sets is one of those `PathSet` describes. -/
theorem SetLogDirectory_pathSet (log : LOG) (d : Str) (valid : Bool) (log1 : LOG)
    (h : log.SetLogDirectory d valid = some log1) : log1.PathSet := by
  unfold LOG.SetLogDirectory at h
  split at h
  · cases h
  · split at h
    · cases h
      exact Or.inr ⟨_, rfl⟩
    · cases h

/-- C3. Size-based rotation with threshold `defaultRotationSize`, without file-system
fault.  Let `S = sizeNow` be the size the active file has when it is opened (the size on disk
for a logger not yet opened, so a file left by an earlier run counts).  After unfiltered
calls `cs` whose records keep `S + totalLength cs` below the threshold, none of which has
rotated, the next unfiltered call `c` returns nil, leaves the logger holding an open
descriptor on the file its unchanged path names, and rotates if and only if
`S + totalLength (cs ++ [c]) ≥ defaultRotationSize`.  When it rotates, the old file has been
renamed to `rotatedLogDir/<timestamp of c>-data.log` and holds everything written to it, the
file now open under the old path is a different one and is empty, nothing is pending, and
`rotation.currentFileSize` is `0`; when it does not, `rotation.currentFileSize` is
`S + totalLength (cs ++ [c])`. -/
theorem sizeBased_rotation_iff (cs : List Call) (c : Call) (log : LOG) (fs : FS)
    (r : Rotation) (hstate : log.Opened fs ∨ log.Unopened) (hb : fs.Bounded)
    (hp : log.PathSet) (hrot : log.rotation = some r)
    (ht : r.rotationType = SizeBasedRotation) (hT : r.rotationSize = defaultRotationSize)
    (hcs : ∀ b ∈ cs ++ [c], b.env.Calm ∧ 0 ≤ b.level ∧ b.level ≤ 4 ∧ log.logLevel ≤ b.level)
    (hbelow : log.sizeNow fs + (totalLength cs : Int) < defaultRotationSize) :
    ∃ log1 fs1, log.logAll fs cs = some (log1, fs1) ∧ fs1.renames = fs.renames ∧
      (log1.Log fs1 c.env c.level c.data).1 = .success ∧
      (log1.Log fs1 c.env c.level c.data).2.1.Opened (log1.Log fs1 c.env c.level c.data).2.2 ∧
      (log1.Log fs1 c.env c.level c.data).2.1.logFilePath = log.logFilePath ∧
      ((log1.Log fs1 c.env c.level c.data).2.2.renames ≠ fs1.renames ↔
        defaultRotationSize ≤ log.sizeNow fs + (totalLength (cs ++ [c]) : Int)) ∧
      (defaultRotationSize ≤ log.sizeNow fs + (totalLength (cs ++ [c]) : Int) →
        (log1.Log fs1 c.env c.level c.data).2.2.renames = fs.renames ++
          [(log.logFilePath, rotatedFile r.rotatedLogDir (getLogTime c.env.now))] ∧
        (log1.Log fs1 c.env c.level c.data).2.2.contentAt
            (rotatedFile r.rotatedLogDir (getLogTime c.env.now)) =
          fs.contentAt log.logFilePath ++ log.pending ++ allRecords (cs ++ [c]) ∧
        (log1.Log fs1 c.env c.level c.data).2.2.contentAt log.logFilePath = [] ∧
        (log1.Log fs1 c.env c.level c.data).2.2.dir
            (rotatedFile r.rotatedLogDir (getLogTime c.env.now)) ≠
          (log1.Log fs1 c.env c.level c.data).2.2.dir log.logFilePath ∧
        (log1.Log fs1 c.env c.level c.data).2.1.pending = [] ∧
        (log1.Log fs1 c.env c.level c.data).2.1.rotation = some { r with
          currentFileSize := 0
          currentFileDate := getCurrentDateString c.env.reopen.now } ∧
        (log1.Log fs1 c.env c.level c.data).2.1.sizeNow
          (log1.Log fs1 c.env c.level c.data).2.2 = 0) ∧
      (log.sizeNow fs + (totalLength (cs ++ [c]) : Int) < defaultRotationSize →
        (log1.Log fs1 c.env c.level c.data).2.2.renames = fs.renames ∧
        (log1.Log fs1 c.env c.level c.data).2.2.contentAt log.logFilePath ++
            (log1.Log fs1 c.env c.level c.data).2.1.pending =
          fs.contentAt log.logFilePath ++ log.pending ++ allRecords (cs ++ [c]) ∧
        (∃ r2, (log1.Log fs1 c.env c.level c.data).2.1.rotation = some r2 ∧
          r2.currentFileSize = log.sizeNow fs + (totalLength (cs ++ [c]) : Int)) ∧
        (log1.Log fs1 c.env c.level c.data).2.1.sizeNow
            (log1.Log fs1 c.env c.level c.data).2.2 =
          log.sizeNow fs + (totalLength (cs ++ [c]) : Int)) := by
  obtain ⟨log1, fs1, h1, h2, h3, hO, hpath, h4, h5⟩ :=
    sizeBased_run cs c log fs r hstate hb hp hrot ht hT hcs hbelow
  refine ⟨log1, fs1, h1, h2, h3, hO, hpath, ⟨fun hne => ?_, fun hge => ?_⟩, fun hge => ?_,
    fun hlt => ?_⟩
  · by_contra hlt
    exact hne (by rw [h2]; exact (h5 (by omega)).1)
  · rw [(h4 hge).1, h2]
    intro h
    have := congrArg List.length h
    simp at this
  · obtain ⟨a1, a2, a3, a4, a5, a6⟩ := h4 hge
    exact ⟨a1, a2, a3, a4, a5, a6, by rw [sizeNow_opened _ _ _ hO a6]⟩
  · obtain ⟨a1, a2, r2, a3, a4⟩ := h5 hlt
    exact ⟨a1, a2, ⟨r2, a3, a4⟩, by rw [sizeNow_opened _ _ _ hO a3, a4]⟩

theorem restartFS_bounded : restartFS.Bounded := by
  intro p i h
  simp only [restartFS] at h
  split at h
  · cases h
    decide
  · cases h

theorem restartFS_size :
    (rotatingLogger SizeBasedRotation).sizeNow restartFS = 1048570 := by
  have h1 : restartFS.dir "data.log".toList = some 0 := by decide
  have h2 : restartFS.data 0 = List.replicate 1048570 'z' := rfl
  have h3 : (rotatingLogger SizeBasedRotation).logFilePath = "data.log".toList := rfl
  have h4 : (rotatingLogger SizeBasedRotation).file = none ∧
      (rotatingLogger SizeBasedRotation).writer = none := ⟨rfl, rfl⟩
  simp only [LOG.sizeNow, h4, and_self, if_true, FS.sizeAt, h3, h1, h2, List.length_replicate]
  rfl

/-- Two small records on a fresh logger with size-based rotation do not rotate; one small
record on a logger restarted against a file six bytes short of the threshold does, and leaves
the logger open on a new empty file with `currentFileSize` back at `0`. -/
theorem sizeBased_rotation_iff_witness :
    (∃ log1 fs1,
      (rotatingLogger SizeBasedRotation).logAll emptyFS
        [⟨calmEnv day4 day4, Info, ['a']⟩] = some (log1, fs1) ∧
      (log1.Log fs1 (calmEnv day5 day5) Error ['b']).1 = .success ∧
      (log1.Log fs1 (calmEnv day5 day5) Error ['b']).2.2.renames = []) ∧
    ((rotatingLogger SizeBasedRotation).Log restartFS (calmEnv day4 day4) Info ['a']).2.2.renames =
      [("data.log".toList, "rotated/2026 November 4 23:59:58-data.log".toList)] ∧
    ((rotatingLogger SizeBasedRotation).Log restartFS (calmEnv day4 day4) Info
      ['a']).2.2.contentAt "data.log".toList = [] ∧
    ((rotatingLogger SizeBasedRotation).Log restartFS (calmEnv day4 day4) Info
      ['a']).2.1.Opened
        ((rotatingLogger SizeBasedRotation).Log restartFS (calmEnv day4 day4) Info ['a']).2.2 ∧
    Option.map Rotation.currentFileSize
      ((rotatingLogger SizeBasedRotation).Log restartFS (calmEnv day4 day4) Info
        ['a']).2.1.rotation = some 0 := by
  constructor
  · obtain ⟨log1, fs1, h1, -, h3, -, -, -, -, h6⟩ :=
      sizeBased_rotation_iff [⟨calmEnv day4 day4, Info, ['a']⟩] ⟨calmEnv day5 day5, Error, ['b']⟩
        (rotatingLogger SizeBasedRotation) emptyFS _
        (Or.inr (rotatingLogger_unopened _)) emptyFS_bounded (rotatingLogger_pathSet _) rfl rfl rfl
        (by
          intro b hb
          simp only [List.singleton_append, List.mem_cons, List.mem_singleton, List.not_mem_nil,
            or_false] at hb
          rcases hb with h | h <;> subst h <;>
            exact ⟨calmEnv_calm _ _, by decide, by decide, by decide⟩)
        (by decide)
    refine ⟨log1, fs1, h1, h3, ?_⟩
    have := (h6 (by decide)).1
    simpa [emptyFS, FS.renames] using this
  · obtain ⟨log1, fs1, h1, -, -, hO, -, -, h5, -⟩ :=
      sizeBased_rotation_iff [] ⟨calmEnv day4 day4, Info, ['a']⟩
        (rotatingLogger SizeBasedRotation) restartFS _
        (Or.inr (rotatingLogger_unopened _)) restartFS_bounded (rotatingLogger_pathSet _) rfl rfl
        rfl
        (by
          intro b hb
          simp only [List.nil_append, List.mem_singleton] at hb
          subst hb
          exact ⟨calmEnv_calm _ _, by decide, by decide, by decide⟩)
        (by rw [restartFS_size]; decide)
    simp only [LOG.logAll, Option.some.injEq, Prod.mk.injEq] at h1
    obtain ⟨e1, e2⟩ := h1
    subst e1 e2
    obtain ⟨a1, -, a3, -, -, a6, -⟩ := h5 (by rw [restartFS_size]; decide)
    dsimp only at a1 a3 a6 hO
    have e3 : restartFS.renames = [] := rfl
    have hpath : (rotatingLogger SizeBasedRotation).logFilePath = "data.log".toList := rfl
    have hrotf : rotatedFile "rotated".toList (getLogTime (calmEnv day4 day4).now) =
        "rotated/2026 November 4 23:59:58-data.log".toList := by decide
    rw [e3] at a1
    rw [hpath] at a1 a3
    refine ⟨a1.trans ?_, a3, hO, ?_⟩
    · rw [List.nil_append]
      exact congrArg (fun x => [("data.log".toList, x)]) hrotf
    · rw [a6]
      rfl

/-! ## Time-based rotation, absent rotation, invalid levels, descriptors -/

/-- The first write of a time-rotated logger, opened on 4 November and checked on
5 November: the record goes to the old file, which is moved away. -/
theorem Log_timeBased_witness :
    ((rotatingLogger TimeBasedRotation).Log emptyFS (calmEnv day4 day5) Info ['x']).1 =
      .success ∧
    ((rotatingLogger TimeBasedRotation).Log emptyFS (calmEnv day4 day5) Info
        ['x']).2.2.contentAt "rotated/2026 November 4 23:59:58-data.log".toList =
      "info  2026 November 4 23:59:58 - main.go:32:  x\n".toList ∧
    ((rotatingLogger TimeBasedRotation).Log emptyFS (calmEnv day4 day5) Info
        ['x']).2.2.contentAt "data.log".toList = [] := by
  obtain ⟨h1, -, h3, -⟩ :=
    Log_timeBased (rotatingLogger TimeBasedRotation) emptyFS (calmEnv day4 day5) Info ['x'] _
      (Or.inr (rotatingLogger_unopened _)) emptyFS_bounded (rotatingLogger_pathSet _) rfl rfl
      (calmEnv_calm _ _) (by decide) (by decide) (by decide)
  obtain ⟨-, a2, a3, -⟩ := h3 (by decide)
  exact ⟨h1, a2, a3⟩

/-- The general form of C5's failure: without a rotation policy no unfiltered call ever
returns. -/
theorem Log_no_rotation (log : LOG) (fs : FS) (env : Env) (level : Int) (data : Str)
    (hrot : log.rotation = none) (h0 : 0 ≤ level) (h4 : level ≤ 4)
    (hl : log.logLevel ≤ level) :
    ∃ p, (log.Log fs env level data).1 = .panic p := by
  obtain ⟨nm, hnm, -⟩ := severityName_some level h0 h4
  simp only [LOG.Log, hnm]
  by_cases hopen : log.file = none ∧ log.writer = none
  · simp only [LOG.ensureOpen, hopen, and_self, if_true]
    have hS := (openFile_general [] log fs env.lazyOpen).2.2
    cases hr : log.openFile fs env.lazyOpen with
    | failed l f => exact ⟨_, rfl⟩
    | panicked p l f => exact ⟨_, rfl⟩
    | done l f =>
      exfalso
      revert hr
      unfold LOG.openFile
      cases fs.osOpenFile log.logFilePath env.lazyOpen.openFails with
      | mk fdo fs1 =>
        cases fdo with
        | none => simp
        | some fd =>
          simp only
          cases env.lazyOpen.statFails with
          | true => simp
          | false =>
            simp only [Bool.false_eq_true, if_false]
            split
            · simp
            · rename_i r hr2
              split at hr2 <;> simp [hrot] at hr2
  · simp only [LOG.ensureOpen, hopen, if_false]
    have hf : ¬ (level < 0 ∨ level > 4 ∨ level < log.logLevel) := by omega
    simp only [hf, if_false]
    refine ⟨.nilDereference, ?_⟩
    have := (write_general log fs
      (formatRecord nm (getLogTime env.now) (getLogFilePlace env.caller) data) env.writeFault).2.2.1
    rw [hrot] at this
    simp [LOG.afterWrite, this]

/-- C5 fails on the code.  On the logger `InitLogger` returns, which has no rotation policy,
the first call `Log(Trace, "x")` opens the file and then panics on the nil `log.rotation` in
`openFile` (line 315), having written nothing; if the caller recovers and logs again, the
message is written and `Log` panics on the nil `log.rotation` at line 208. -/
theorem Log_default_logger_panics :
    (InitLogger.Log emptyFS (calmEnv day4 day4) Trace ['x']).1 = .panic .nilDereference ∧
    (InitLogger.Log emptyFS (calmEnv day4 day4) Trace ['x']).2.2.calls =
      [IOCall.osOpenFile "data.log".toList (some 3)] ∧
    (((InitLogger.Log emptyFS (calmEnv day4 day4) Trace ['x']).2.1.Log
        (InitLogger.Log emptyFS (calmEnv day4 day4) Trace ['x']).2.2 (calmEnv day4 day4) Trace
        ['y']).1 = .panic .nilDereference) := by
  decide

/-- C6 fails on the code.  For every level outside `0..4`, `Log` does not return an error
value: it panics with an index out of range at `severityLevels[level]` (line 180), before
the check of line 196 is reached.  No file-system call is made and the logger is
unchanged. -/
theorem Log_invalid_level_panics (log : LOG) (fs : FS) (env : Env) (level : Int)
    (data : Str) (h : level < 0 ∨ 4 < level) :
    log.Log fs env level data = (.panic .indexOutOfRange, log, fs) := by
  simp [LOG.Log, severityName_none level h]

theorem Log_invalid_level_panics_witness :
    (rotatingLogger SizeBasedRotation).Log emptyFS (calmEnv day4 day4) 5 ['x'] =
      (.panic .indexOutOfRange, rotatingLogger SizeBasedRotation, emptyFS) :=
  Log_invalid_level_panics _ _ _ 5 _ (Or.inr (by decide))

/-- C7 fails on the code in asynchronous mode.  `openFile` stores the descriptor only
inside the writer and leaves `log.file` nil, so `log.file.Close()` closes nothing: after one
call and `Release` descriptor 3 is still open, and after a rotation both the old descriptor 3
and the new descriptor 4 are open.  In synchronous mode the same two calls leave only
descriptor 4 open. -/
theorem async_handle_leak :
    (asyncLogger.Log emptyFS (calmEnv day4 day4) Trace ['x']).1 = .success ∧
    (asyncLogger.Log emptyFS (calmEnv day4 day4) Trace ['x']).2.2.openFds = [3] ∧
    (((asyncLogger.Log emptyFS (calmEnv day4 day4) Trace ['x']).2.1.Release
        (asyncLogger.Log emptyFS (calmEnv day4 day4) Trace ['x']).2.2 none).2.openFds = [3]) ∧
    (((asyncLogger.Log emptyFS (calmEnv day4 day4) Trace ['x']).2.1.Log
        (asyncLogger.Log emptyFS (calmEnv day4 day4) Trace ['x']).2.2 (calmEnv day5 day5) Trace
        ['y']).1 = .success) ∧
    (((asyncLogger.Log emptyFS (calmEnv day4 day4) Trace ['x']).2.1.Log
        (asyncLogger.Log emptyFS (calmEnv day4 day4) Trace ['x']).2.2 (calmEnv day5 day5) Trace
        ['y']).2.2.openFds = [4, 3]) ∧
    (((rotatingLogger TimeBasedRotation).Log emptyFS (calmEnv day4 day4) Trace ['x']).2.1.Log
        ((rotatingLogger TimeBasedRotation).Log emptyFS (calmEnv day4 day4) Trace ['x']).2.2
        (calmEnv day5 day5) Trace ['y']).2.2.openFds = [4] := by
  decide

/-! ## Which failures reach the caller -/

theorem rotate_rename_fails (log : LOG) (fs : FS) (env : Env) (ts : Str) (r : Rotation)
    (hrot : log.rotation = some r) (hf : env.renameFails = true) :
    ∃ l f, log.rotate fs env ts = .panicked .ioError l f := by
  have h2 := (flushWriter_general [] [] log fs env.flushFault).2.1
  have h3 : ∀ (f : FS) (o n : Str), (f.osRename o n true).1 = false := by
    intro f o n
    unfold FS.osRename
    cases f.dir o <;> rfl
  unfold LOG.rotate
  simp only [h2, hrot, hf]
  cases hR : ((log.flushWriter fs env.flushFault).2.fileClose
      (log.flushWriter fs env.flushFault).1.file).osRename
      (log.flushWriter fs env.flushFault).1.logFilePath (rotatedFile r.rotatedLogDir ts) true with
  | mk ok fs3 =>
    have := h3 ((log.flushWriter fs env.flushFault).2.fileClose
      (log.flushWriter fs env.flushFault).1.file)
      (log.flushWriter fs env.flushFault).1.logFilePath (rotatedFile r.rotatedLogDir ts)
    rw [hR] at this
    simp only at this
    subst this
    exact ⟨_, _, rfl⟩

theorem afterWrite_due_rename_fails (log : LOG) (fs : FS) (env : Env) (ts : Str) (n : Nat)
    (r : Rotation) (hrot : log.rotation = some r) (hf : env.renameFails = true)
    (hdue : (r.rotationType = SizeBasedRotation ∧ r.rotationSize ≤ r.currentFileSize + (n : Int)) ∨
      (r.rotationType = TimeBasedRotation ∧
        r.currentFileDate ≠ getCurrentDateString env.checkNow)) :
    (log.afterWrite fs env ts n).1 = .panic .ioError := by
  obtain ⟨l, f, hR⟩ := rotate_rename_fails
    { log with rotation := some { r with currentFileSize := r.currentFileSize + (n : Int) } }
    fs env ts _ rfl hf
  unfold LOG.afterWrite
  simp only [hrot]
  rcases hdue with ⟨h1, h2⟩ | ⟨h1, h2⟩
  · rw [if_pos ⟨h1, h2⟩]
    simp only [LOG.sizeBasedRotation, hR]
  · have hns : ¬ (r.rotationType = SizeBasedRotation ∧
        r.currentFileSize + (n : Int) ≥ r.rotationSize) := by
      rintro ⟨h3, -⟩
      rw [h1] at h3
      exact type_ne h3.symm
    rw [if_neg hns]
    simp only
    rw [if_pos ⟨h1, h2⟩]
    simp only [LOG.timeBasedRotation, hR]

theorem afterWrite_not_due (log : LOG) (fs : FS) (env : Env) (ts : Str) (n : Nat)
    (r : Rotation) (hrot : log.rotation = some r)
    (hdue : ¬ ((r.rotationType = SizeBasedRotation ∧
        r.rotationSize ≤ r.currentFileSize + (n : Int)) ∨
      (r.rotationType = TimeBasedRotation ∧
        r.currentFileDate ≠ getCurrentDateString env.checkNow))) :
    log.afterWrite fs env ts n =
      (.success,
        { log with rotation := some { r with currentFileSize := r.currentFileSize + (n : Int) } },
        fs) := by
  have hns : ¬ (r.rotationType = SizeBasedRotation ∧
      r.currentFileSize + (n : Int) ≥ r.rotationSize) := fun h => hdue (Or.inl h)
  have hnt : ¬ (r.rotationType = TimeBasedRotation ∧
      r.currentFileDate ≠ getCurrentDateString env.checkNow) := fun h => hdue (Or.inr h)
  unfold LOG.afterWrite
  simp only [hrot]
  rw [if_neg hns]
  simp only
  rw [if_neg hnt]

/-- C8, amended.  For every call with a valid level: a failure of the lazy `os.OpenFile`
makes `Log` panic; once the lazy open has returned and the call is not filtered, the write
reports at most the length of the record; if a rotation is then due (by size, counting the
bytes the write reported, or by day) and its `os.Rename` fails, `Log` panics; and if no
rotation is due, `Log` returns nil and adds the reported byte count to `currentFileSize`,
whether or not the write failed. -/
theorem Log_surfaces_open_and_rename_only (log : LOG) (fs : FS) (env : Env) (level : Int)
    (data : Str) (h0 : 0 ≤ level) (h4 : level ≤ 4) :
    (log.Unopened → env.lazyOpen.openFails = true →
      (log.Log fs env level data).1 = .panic .ioError) ∧
    (∀ log1 fs1 r1, log.ensureOpen fs env.lazyOpen = .done log1 fs1 →
      log1.rotation = some r1 → log.logLevel ≤ level →
      (log1.write fs1 (Call.record ⟨env, level, data⟩) env.writeFault).1 ≤
        (Call.record ⟨env, level, data⟩).length ∧
      (((r1.rotationType = SizeBasedRotation ∧ r1.rotationSize ≤ r1.currentFileSize +
            ((log1.write fs1 (Call.record ⟨env, level, data⟩) env.writeFault).1 : Int)) ∨
          (r1.rotationType = TimeBasedRotation ∧
            r1.currentFileDate ≠ getCurrentDateString env.checkNow)) →
        env.renameFails = true → (log.Log fs env level data).1 = .panic .ioError) ∧
      (¬ ((r1.rotationType = SizeBasedRotation ∧ r1.rotationSize ≤ r1.currentFileSize +
            ((log1.write fs1 (Call.record ⟨env, level, data⟩) env.writeFault).1 : Int)) ∨
          (r1.rotationType = TimeBasedRotation ∧
            r1.currentFileDate ≠ getCurrentDateString env.checkNow)) →
        (log.Log fs env level data).1 = .success ∧
        (log.Log fs env level data).2.1.rotation = some { r1 with
          currentFileSize := r1.currentFileSize +
            ((log1.write fs1 (Call.record ⟨env, level, data⟩) env.writeFault).1 : Int) })) := by
  obtain ⟨nm, hnm, -⟩ := severityName_some level h0 h4
  refine ⟨fun hun hf => ?_, fun log1 fs1 r1 hopen hrot1 hl => ?_⟩
  · have hu : log.file = none ∧ log.writer = none := hun
    simp only [LOG.Log, hnm, LOG.ensureOpen, hu, and_self, if_true, LOG.openFile, FS.osOpenFile, hf]
  · have hlv := ensureOpen_logLevel log fs env.lazyOpen log1 fs1 hopen
    have hL := Log_of_open log fs env level data log1 fs1 hopen h0 h4 (by rw [hlv]; exact hl)
    obtain ⟨w1, -, w3, -, -⟩ :=
      write_general log1 fs1 (Call.record ⟨env, level, data⟩) env.writeFault
    rw [hrot1] at w3
    refine ⟨w1, fun hdue hf => ?_, fun hdue => ?_⟩
    · rw [hL]
      exact afterWrite_due_rename_fails _ _ env _ _ r1 w3 hf hdue
    · rw [hL, afterWrite_not_due _ _ env _ _ r1 w3 hdue]
      exact ⟨rfl, rfl⟩

theorem Log_surfaces_open_and_rename_only_witness :
    ((rotatingLogger TimeBasedRotation).Log emptyFS failingOpenEnv Info ['x']).1 =
      .panic .ioError ∧
    ((rotatingLogger TimeBasedRotation).Log emptyFS failingRenameEnv Info ['x']).1 =
      .panic .ioError ∧
    ((rotatingLogger TimeBasedRotation).Log emptyFS failingWriteEnv Info ['x']).1 = .success := by
  have h1 := Log_surfaces_open_and_rename_only (rotatingLogger TimeBasedRotation) emptyFS
    failingOpenEnv Info ['x'] (by decide) (by decide)
  have h2 := (Log_surfaces_open_and_rename_only (rotatingLogger TimeBasedRotation) emptyFS
    failingRenameEnv Info ['x'] (by decide) (by decide)).2 _ _ _ rfl rfl (by decide)
  have h3 := (Log_surfaces_open_and_rename_only (rotatingLogger TimeBasedRotation) emptyFS
    failingWriteEnv Info ['x'] (by decide) (by decide)).2 _ _ _ rfl rfl (by decide)
  exact ⟨h1.1 (rotatingLogger_unopened _) rfl, h2.2.1 (Or.inr (by decide)) rfl,
    (h3.2.2 (by decide)).1⟩

/-- C8 as stated fails.  When the write to the file fails before any byte is written, `Log`
returns nil: the call `log.file.Write` is made, reports `0` bytes, and the file stays empty.
When the `openFile` of a rotation fails, `Log` returns nil as well and no descriptor is left
open. -/
theorem Log_swallows_write_and_reopen_errors :
    ((rotatingLogger TimeBasedRotation).Log emptyFS failingWriteEnv Info ['x']).1 = .success ∧
    ((rotatingLogger TimeBasedRotation).Log emptyFS failingWriteEnv Info ['x']).2.2.calls =
      [IOCall.osOpenFile "data.log".toList (some 3),
        IOCall.fileWrite (some 3) "info  2026 November 4 23:59:58 - main.go:32:  x\n".toList 0] ∧
    ((rotatingLogger TimeBasedRotation).Log emptyFS failingWriteEnv Info
      ['x']).2.2.contentAt "data.log".toList = [] ∧
    ((rotatingLogger TimeBasedRotation).Log emptyFS failingReopenEnv Info ['x']).1 = .success ∧
    ((rotatingLogger TimeBasedRotation).Log emptyFS failingReopenEnv Info ['x']).2.2.openFds =
      [] := by
  decide

/-! ## Rotation targets -/

theorem rotatedFile_inj (d t1 t2 : Str) : rotatedFile d t1 = rotatedFile d t2 ↔ t1 = t2 := by
  constructor
  · intro h
    simpa [rotatedFile] using h
  · intro h
    rw [h]

/-- C9, amended.  Whatever the environment does, every `os.Rename` a call of `Log` makes is
one of the active path to `rotatedLogDir/<timestamp of that call>-data.log`, and no directory
entry other than these two is changed; and two such targets in the same directory are equal
exactly when the two time stamps are equal. -/
theorem rotation_renames_only_to_its_target (log : LOG) (fs : FS) (env : Env) (level : Int)
    (data : Str) (r : Rotation) (hrot : log.rotation = some r) :
    (∃ post, (log.Log fs env level data).2.2.calls = fs.calls ++ post ∧
      ∀ o n ok, IOCall.osRename o n ok ∈ post →
        o = log.logFilePath ∧ n = rotatedFile r.rotatedLogDir (getLogTime env.now)) ∧
    (∀ p, p ≠ log.logFilePath → p ≠ rotatedFile r.rotatedLogDir (getLogTime env.now) →
      (log.Log fs env level data).2.2.dir p = fs.dir p) ∧
    (∀ t1 t2, rotatedFile r.rotatedLogDir t1 = rotatedFile r.rotatedLogDir t2 ↔ t1 = t2) :=
  ⟨(Log_general log fs env level data r hrot).1.1, (Log_general log fs env level data r hrot).1.2,
    fun t1 t2 => rotatedFile_inj _ t1 t2⟩

/-- A rotation on 5 November leaves the file rotated on 3 November under its name. -/
theorem rotation_renames_only_to_its_target_witness :
    ((rotatingLogger TimeBasedRotation).Log archiveFS (calmEnv day4 day5) Info ['x']).2.2.dir
        "rotated/2026 November 3 10:0:0-data.log".toList = some 0 ∧
    (rotatedFile "rotated".toList "2026 November 4 23:59:58".toList =
        rotatedFile "rotated".toList "2026 November 3 10:0:0".toList ↔
      "2026 November 4 23:59:58".toList = "2026 November 3 10:0:0".toList) :=
  ⟨(rotation_renames_only_to_its_target (rotatingLogger TimeBasedRotation) archiveFS
      (calmEnv day4 day5) Info ['x'] _ rfl).2.1 _ (by decide) (by decide),
    (rotation_renames_only_to_its_target (rotatingLogger TimeBasedRotation) archiveFS
      (calmEnv day4 day5) Info ['x'] _ rfl).2.2 "2026 November 4 23:59:58".toList
      "2026 November 3 10:0:0".toList⟩

theorem record_length_ge (c : Call) : c.data.length ≤ c.record.length := by
  simp only [Call.record, formatRecord, List.length_append]
  omega

theorem formatRecord_data_inj (s t p d1 d2 : Str)
    (h : formatRecord s t p d1 = formatRecord s t p d2) : d1 = d2 := by
  simpa [formatRecord] using h

theorem bigText_length (x : Char) : (bigText x).length = 1048576 :=
  List.length_replicate _ _

theorem bigText_ne : bigText 'a' ≠ bigText 'b' := by
  intro h
  have h1 : 'a' ∈ bigText 'a' := List.mem_replicate.2 ⟨by decide, rfl⟩
  rw [h] at h1
  exact absurd (List.mem_replicate.1 h1).2 (by decide)

/-- C9 as stated fails.  Two records of `defaultRotationSize` bytes of text, logged within
the same second to a logger with size-based rotation, each trigger a rotation, and both
rotations rename the active file to `rotated/2026 November 4 23:59:58-data.log`: after the
first that path holds the first record, after the second it holds the second record, which is
different. -/
theorem same_second_rotations_collide :
    ((rotatingLogger SizeBasedRotation).Log emptyFS (calmEnv day4 day4) Info (bigText 'a')).1 =
      .success ∧
    ((rotatingLogger SizeBasedRotation).Log emptyFS (calmEnv day4 day4) Info
        (bigText 'a')).2.2.renames =
      [("data.log".toList, "rotated/2026 November 4 23:59:58-data.log".toList)] ∧
    ((rotatingLogger SizeBasedRotation).Log emptyFS (calmEnv day4 day4) Info
        (bigText 'a')).2.2.contentAt "rotated/2026 November 4 23:59:58-data.log".toList =
      Call.record ⟨calmEnv day4 day4, Info, bigText 'a'⟩ ∧
    (((rotatingLogger SizeBasedRotation).Log emptyFS (calmEnv day4 day4) Info
        (bigText 'a')).2.1.Log
      ((rotatingLogger SizeBasedRotation).Log emptyFS (calmEnv day4 day4) Info
        (bigText 'a')).2.2 (calmEnv day4 day4) Info (bigText 'b')).1 = .success ∧
    (((rotatingLogger SizeBasedRotation).Log emptyFS (calmEnv day4 day4) Info
        (bigText 'a')).2.1.Log
      ((rotatingLogger SizeBasedRotation).Log emptyFS (calmEnv day4 day4) Info
        (bigText 'a')).2.2 (calmEnv day4 day4) Info (bigText 'b')).2.2.renames =
      [("data.log".toList, "rotated/2026 November 4 23:59:58-data.log".toList),
        ("data.log".toList, "rotated/2026 November 4 23:59:58-data.log".toList)] ∧
    (((rotatingLogger SizeBasedRotation).Log emptyFS (calmEnv day4 day4) Info
        (bigText 'a')).2.1.Log
      ((rotatingLogger SizeBasedRotation).Log emptyFS (calmEnv day4 day4) Info
        (bigText 'a')).2.2 (calmEnv day4 day4) Info
        (bigText 'b')).2.2.contentAt "rotated/2026 November 4 23:59:58-data.log".toList =
      Call.record ⟨calmEnv day4 day4, Info, bigText 'b'⟩ ∧
    Call.record ⟨calmEnv day4 day4, Info, bigText 'a'⟩ ≠
      Call.record ⟨calmEnv day4 day4, Info, bigText 'b'⟩ := by
  have hpath : (rotatingLogger SizeBasedRotation).logFilePath = "data.log".toList := rfl
  have hrotf : rotatedFile "rotated".toList (getLogTime (calmEnv day4 day4).now) =
      "rotated/2026 November 4 23:59:58-data.log".toList := by decide
  have hbig : ∀ x : Char, (defaultRotationSize : Int) ≤
      ((Call.record ⟨calmEnv day4 day4, Info, bigText x⟩).length : Int) := by
    intro x
    have h1 := record_length_ge ⟨calmEnv day4 day4, Info, bigText x⟩
    have h2 : (bigText x).length = 1048576 := bigText_length x
    simp only [h2] at h1
    simp only [defaultRotationSize]
    omega
  have hsz0 : (rotatingLogger SizeBasedRotation).sizeNow emptyFS = 0 := by decide
  obtain ⟨s1, s2, s3, s4, s5, s6, -, s8⟩ :=
    Log_sizeBased_step (rotatingLogger SizeBasedRotation) emptyFS (calmEnv day4 day4) Info
      (bigText 'a') _ (Or.inr (rotatingLogger_unopened _)) emptyFS_bounded
      (rotatingLogger_pathSet _) rfl rfl (calmEnv_calm _ _) (by decide) (by decide) (by decide)
  obtain ⟨a1, a2, a3, -, a5, a6⟩ := s8 (by rw [hsz0]; have := hbig 'a'; simpa using this)
  have hsz1 := sizeNow_opened _ _ _ s2 a6
  obtain ⟨u1, -, -, -, -, -, -, u8⟩ :=
    Log_sizeBased_step _ _ (calmEnv day4 day4) Info (bigText 'b') _ (Or.inl s2) s3 s4 a6 rfl
      (calmEnv_calm _ _) (by decide) (by decide) (by rw [s6]; decide)
  obtain ⟨b1, b2, -, -, -, -⟩ := u8 (by rw [hsz1]; have := hbig 'b'; simpa using this)
  simp only [s5, hpath] at b1 b2 a1 a2 a3
  rw [a1] at b1
  rw [a3, a5] at b2
  simp only [hrotf] at a1 a2 b1 b2
  have e1 : emptyFS.contentAt "data.log".toList = [] := rfl
  have e2 : (rotatingLogger SizeBasedRotation).pending = [] := rfl
  have e3 : emptyFS.renames = [] := rfl
  rw [e1, e2] at a2
  rw [e3] at a1 b1
  simp only [List.nil_append, List.append_nil, List.cons_append] at a1 a2 b1 b2
  exact ⟨s1, a1, a2, u1, b1, b2, fun h => bigText_ne (formatRecord_data_inj _ _ _ _ _ h)⟩

/-! ## Round trip of the record format -/

theorem severity_no_space (name : Str) (h : name ∈ severityLevels) : ∀ c ∈ name, c ≠ ' ' := by
  simp only [severityLevels, List.mem_cons, List.mem_singleton, List.not_mem_nil, or_false] at h
  rcases h with h | h | h | h | h <;> subst h <;> decide

theorem severity_no_newline (name : Str) (h : name ∈ severityLevels) :
    ∀ c ∈ name, c ≠ '\n' := by
  simp only [severityLevels, List.mem_cons, List.mem_singleton, List.not_mem_nil, or_false] at h
  rcases h with h | h | h | h | h <;> subst h <;> decide

theorem getLogFilePlace_no_space (caller : Option (Str × Int))
    (h : ∀ file line, caller = some (file, line) → ∀ x ∈ file, x ≠ ' ') :
    ∀ c ∈ getLogFilePlace caller, c ≠ ' ' := by
  cases caller with
  | none => rw [getLogFilePlace_none]; decide
  | some fl =>
    obtain ⟨file, line⟩ := fl
    exact getLogFilePlace_ne file line ' ' (Or.inl rfl) (h file line rfl)

/-- C10, amended.  For every call with a valid level, a clock reading with a non-negative
year, and a caller whose file name has no space (or no caller), and for every text: the
record has the documented shape and ends in a newline; reading it back with `parseRecord`
recovers the level name, the time stamp, the caller location and the text; and it is a
single line exactly when neither the caller location nor the text contains a newline. -/
theorem parseRecord_record (c : Call) (name : Str) (hname : severityName c.level = some name)
    (hyear : 0 ≤ c.env.now.year)
    (hfile : ∀ file line, c.env.caller = some (file, line) → ∀ x ∈ file, x ≠ ' ') :
    c.record = name ++ [' ', ' '] ++ getLogTime c.env.now ++ [' ', '-', ' '] ++
      getLogFilePlace c.env.caller ++ [':', ' ', ' '] ++ c.data ++ ['\n'] ∧
    parseRecord c.record =
      (name, getLogTime c.env.now, getLogFilePlace c.env.caller, c.data) ∧
    c.record.getLast? = some '\n' ∧
    ('\n' ∉ c.record.dropLast ↔ '\n' ∉ getLogFilePlace c.env.caller ∧ '\n' ∉ c.data) := by
  have hmem : name ∈ severityLevels := by
    unfold severityName at hname
    split at hname
    · cases hname
    · exact List.get?_mem hname
  have hrec : c.record = formatRecord name (getLogTime c.env.now)
      (getLogFilePlace c.env.caller) c.data := by
    simp only [Call.record, hname, Option.getD_some]
  refine ⟨by rw [hrec]; rfl, ?_, ?_, ?_⟩
  · rw [hrec]
    exact parse_format _ _ _ _ (severity_no_space name hmem)
      (getLogTime_no_dash _ hyear) (getLogFilePlace_no_space _ hfile)
  · rw [hrec]
    simp only [formatRecord]
    exact List.getLast?_concat _
  · rw [hrec]
    have h1 := severity_no_newline name hmem
    have h2 := getLogTime_no_newline c.env.now
    have hd : (formatRecord name (getLogTime c.env.now) (getLogFilePlace c.env.caller)
        c.data).dropLast = name ++ [' ', ' '] ++ getLogTime c.env.now ++ [' ', '-', ' '] ++
        getLogFilePlace c.env.caller ++ [':', ' ', ' '] ++ c.data := by
      simp only [formatRecord]
      exact List.dropLast_concat
    rw [hd]
    simp only [List.mem_append, not_or]
    constructor
    · intro h
      exact ⟨h.1.1.2, h.2⟩
    · intro h
      refine ⟨⟨⟨⟨⟨⟨fun hc => h1 _ hc rfl, by decide⟩, fun hc => h2 _ hc rfl⟩, by decide⟩, h.1⟩,
        by decide⟩, h.2⟩

theorem parseRecord_record_witness :
    parseRecord "warning  2026 November 4 23:59:58 - main.go:32:  a - b:  c\nd\n".toList =
      ("warning".toList, "2026 November 4 23:59:58".toList, "main.go:32".toList,
        "a - b:  c\nd".toList) :=
  (parseRecord_record ⟨calmEnv day4 day4, Warning, "a - b:  c\nd".toList⟩ "warning".toList
    (by decide) (by decide)
    (by
      intro file line h
      cases h
      decide)).2.1

/-- C10 as stated fails.  The caller locations `m.go:7` and `m.go:7:  m.go:8`, which
`getLogFilePlace` produces for the files `/src/m.go` and `/src/m.go:7:  m.go`, give the same
record with the texts `m.go:8:  hi` and `hi`; and the text `a\nb` gives a record of two
lines. -/
theorem record_not_injective_nor_one_line :
    formatRecord "info".toList "2026 November 4 23:59:58".toList "m.go:7".toList
        "m.go:8:  hi".toList =
      formatRecord "info".toList "2026 November 4 23:59:58".toList "m.go:7:  m.go:8".toList
        "hi".toList ∧
    getLogFilePlace (some ("/src/m.go:7:  m.go".toList, 8)) = "m.go:7:  m.go:8".toList ∧
    getLogFilePlace (some ("/src/m.go".toList, 7)) = "m.go:7".toList ∧
    (Call.record ⟨calmEnv day4 day4, Info, "a\nb".toList⟩ =
      "info  2026 November 4 23:59:58 - main.go:32:  a\nb\n".toList) ∧
    (Call.record ⟨calmEnv day4 day4, Info, "a\nb".toList⟩).count '\n' = 2 := by
  decide

end Shlog
